import Mathlib

/-!
Verification development for the RKTK BFGS optimization engine
(`bfgs_subroutines.cpp`, `QuadraticLineSearcher.hpp`, `nonlinear_optimizers.hpp`,
`FilenameHelpers.hpp`).

Modelling conventions for the shallow embedding:

* The arbitrary-precision MPFR scalars are modelled as rationals `ℚ` together
  with an explicit rounding function `fl : ℚ → ℚ` applied after every
  inexact elementary MPFR operation (`mpfr_add`, `mpfr_sub`, `mpfr_mul`,
  `mpfr_div`, `mpfr_fma`, `mpfr_fms`, `mpfr_sqr`, `mpfr_mul_ui`).
  Operations that MPFR performs exactly at unchanged precision are modelled
  exactly: `mpfr_set` between variables of the same precision, `mpfr_neg`,
  `mpfr_swap`, and the power-of-two scalings `mpfr_mul_2ui` / `mpfr_div_2ui`.
* `mpfr_sqrt` is modelled by a second abstract rounded operation
  `fsqrt : ℚ → ℚ` (a rounded square root is not a rational function).
* The objective function and its gradient are external collaborators and are
  modelled as abstract parameters `φ` and `gradf`.
* MPFR comparison predicates (`mpfr_less_p`, `mpfr_greaterequal_p`,
  `mpfr_equal_p`, `mpfr_zero_p`, `mpfr_sgn`) become the corresponding
  decidable comparisons on `ℚ`; NaN propagation is out of scope here (the
  program treats any NaN as a fatal error and aborts).
* Unbounded C++ loops become fuel-indexed recursions returning `Option`;
  `none` means the fuel ran out, never a result of the program itself.
-/

namespace RKTK

/-- A vector of `n` arbitrary-precision scalars (`mpfr_t *` of length `n`,
`rktk::MPFRVector` with `NUM_VARS = n`). -/
abbrev Vec (n : ℕ) := Fin n → ℚ

/-- An `n × n` matrix of arbitrary-precision scalars (`rktk::MPFRMatrix`,
row-major `mpfr_t *` of length `n * n`). -/
abbrev Mat (n : ℕ) := Fin n → Fin n → ℚ

/-- The list of values of a finite family, in index order (used to spell the
`for` loops of the source as list folds). -/
def ofFnL {α : Type} : {n : ℕ} → (Fin n → α) → List α
  | 0, _ => []
  | _ + 1, f => f 0 :: ofFnL (fun i => f i.succ)

/-- The rounded multiply/fused-multiply-add chain shared by `dot`,
`matrix_vector_multiply` and `l2_norm` in the source: the first pair is
`mpfr_mul`-ed, every further pair is accumulated with `mpfr_fma`
(one rounding per fma, the product inside the fma is exact). -/
def chainFma (fl : ℚ → ℚ) : List (ℚ × ℚ) → ℚ
  | [] => 0
  | p :: rest => rest.foldl (fun acc q => fl (q.1 * q.2 + acc)) (fl (p.1 * p.2))

/-- `dot` from `bfgs_subroutines.cpp`: `mpfr_mul(dst, v[0], w[0])` followed by
`mpfr_fma(dst, v[i], w[i], dst)` for `i = 1 .. n-1`. -/
def dotFl (fl : ℚ → ℚ) {n : ℕ} (v w : Vec n) : ℚ :=
  chainFma fl (ofFnL fun i => (v i, w i))

/-- `matrix_vector_multiply` from `linalg_subroutines.cpp`: each row is a
`chainFma` over the row entries and the vector. -/
def matVecFl (fl : ℚ → ℚ) {n : ℕ} (M : Mat n) (v : Vec n) : Vec n :=
  fun i => chainFma fl (ofFnL fun j => (M i j, v j))

/-- `MPFRVector::norm` / `l2_norm`: `mpfr_sqr`, an fma chain, then
`mpfr_sqrt` (modelled by the abstract rounded square root `fsqrt`). -/
def l2NormFl (fl fsqrt : ℚ → ℚ) {n : ℕ} (v : Vec n) : ℚ :=
  fsqrt (chainFma fl (ofFnL fun i => (v i, v i)))

/-- `identity_matrix` / `MPFRMatrix::set_identity_matrix`:
`mpfr_set_si(mat[k], i == j)` (exact). -/
def identityMat (n : ℕ) : Mat n := fun i j => if i = j then 1 else 0

/-- `update_inverse_hessian` from `bfgs_subroutines.cpp` (lines 123-167),
translated operation by operation.  The C++ routine mutates `inv_hess` in
place; here the updated matrix is returned.  Intermediate steps:
`kappa0 = inv_hess × delta_gradient`; `theta = delta_gradient · kappa0`;
`lam = fl(dot(delta_gradient, step_direction) · step_size)` (the source
multiplies the dot product by `step_size`, in that operand order);
`mpfr_sqr` for `lam²`; `sigma = fl(fl(lam + theta) / lam²)`;
`beta = fl(fl(step_size·lam)·sigma) / 2` (`mpfr_div_2ui` is exact);
`kappa i = -(fl(beta·d i - kappa0 i))` (`mpfr_fms` then exact `mpfr_neg`);
`alpha = -(fl(step_size / lam))`; finally every entry gets
`fl(alpha · fl(d i · kappa j + fl(kappa i · d j)) + H i j)`
(`mpfr_mul`, `mpfr_fma`, `mpfr_fma`). -/
def update_inverse_hessian (fl : ℚ → ℚ) {n : ℕ}
    (H : Mat n) (g : Vec n) (s : ℚ) (d : Vec n) : Mat n :=
  let kappa0 := matVecFl fl H g
  let theta := dotFl fl g kappa0
  let lam := fl (dotFl fl g d * s)
  let lamSq := fl (lam * lam)
  let sigma := fl (fl (lam + theta) / lamSq)
  let beta := fl (fl (s * lam) * sigma) / 2
  let kappa := fun i => -fl (beta * d i - kappa0 i)
  let alpha := -fl (s / lam)
  fun i j => fl (alpha * fl (d i * kappa j + fl (kappa i * d j)) + H i j)

/-- The update formulas exactly as claim C2 words them (`κ = H×g`,
`θ = g·κ`, `λ = s·(g·d)`, `σ = (λ+θ)/λ²`, `β = s·λ·σ/2`,
`κᵢ ← −(β·dᵢ − κᵢ)`, `α = −s/λ`,
`Hᵢⱼ += α·(κᵢ·dⱼ + dᵢ·κⱼ)`), with each elementary operation rounded at the
working precision (the fused multiply-add being one of the elementary
operations the numeric engine provides). -/
def update_inverse_hessian_spec (fl : ℚ → ℚ) {n : ℕ}
    (H : Mat n) (g : Vec n) (s : ℚ) (d : Vec n) : Mat n :=
  let kappa := matVecFl fl H g
  let theta := dotFl fl g kappa
  let lam := fl (s * dotFl fl g d)
  let sigma := fl (fl (lam + theta) / fl (lam * lam))
  let beta := fl (fl (s * lam) * sigma) / 2
  let kappa' := fun i => -fl (beta * d i - kappa i)
  let alpha := -fl (s / lam)
  fun i j => fl (alpha * fl (d i * kappa' j + fl (kappa' i * d j)) + H i j)

end RKTK

namespace RKTK

/-- Claim C2: `update_inverse_hessian` computes exactly the sequence of
formulas listed in the claim, each elementary operation rounded at the
working precision, and changes nothing besides the matrix entries (the
embedding returns the full updated matrix, every entry given by the final
formula).  The only textual difference between the code and the claim is
the operand order of the product defining `λ`, which is irrelevant because
the exact product commutes before it is rounded. -/
theorem C2_update_inverse_hessian_formulas (fl : ℚ → ℚ) {n : ℕ}
    (H : Mat n) (g : Vec n) (s : ℚ) (d : Vec n) :
    update_inverse_hessian fl H g s d = update_inverse_hessian_spec fl H g s d := by
  unfold update_inverse_hessian update_inverse_hessian_spec
  rw [mul_comm (dotFl fl g d) s]

end RKTK

namespace RKTK

/-- The binade exponent of a positive rational: the `e` with
`2 ^ e ≤ a < 2 ^ (e + 1)`, written as an explicit comparison chain so that
it is exact for every `a` in `[2 ^ (-8), 2 ^ 9)` — a range that amply
contains every scalar the concrete rounding computations below reach. -/
def exp2B (a : ℚ) : ℤ :=
  if a < 1 / 128 then -8 else if a < 1 / 64 then -7 else if a < 1 / 32 then -6
  else if a < 1 / 16 then -5 else if a < 1 / 8 then -4 else if a < 1 / 4 then -3
  else if a < 1 / 2 then -2 else if a < 1 then -1 else if a < 2 then 0
  else if a < 4 then 1 else if a < 8 then 2 else if a < 16 then 3
  else if a < 32 then 4 else if a < 64 then 5 else if a < 128 then 6
  else if a < 256 then 7 else 8

/-- Round a positive rational to the nearest two-significant-bit float
with ties to even: after scaling into the normalized mantissa interval
`[2, 4)`, the candidate mantissas are `2`, `3`, `4`; the midpoint `5/2`
resolves to the even mantissa `2` and the midpoint `7/2` to the even
mantissa `4`. -/
def rndNE2Pos (a : ℚ) : ℚ :=
  let k : ℤ := 1 - exp2B a
  let scaled := a * 2 ^ k
  let m : ℚ := if scaled ≤ 5 / 2 then 2 else if scaled < 7 / 2 then 3 else 4
  m * 2 ^ (-k)

/-- Round-to-nearest with ties to even at a working precision of two
significant bits: the `MPFR_RNDN` rounding mode that `rksearch_main.cpp`
hard-codes, at precision 2, modelled exactly (it is symmetric under
negation, and exact wherever `exp2B` is exact — a range every scalar
rounded by the computations below lies well inside). -/
def rndNE2 (q : ℚ) : ℚ :=
  if q = 0 then 0 else if q < 0 then -rndNE2Pos (-q) else rndNE2Pos q

/-- The symmetric matrix `[[1, 1/2], [1/2, 3/2]]` (all four entries exactly
representable at two significant bits). -/
def hC3 : Mat 2 := fun i j =>
  if i = 0 then (if j = 0 then 1 else 1 / 2) else (if j = 0 then 1 / 2 else 3 / 2)

/-- The gradient-delta vector `(3/4, 3)`. -/
def gC3 : Vec 2 := fun i => if i = 0 then 3 / 4 else 3

/-- The step-direction vector `(3/2, 1/4)`. -/
def dC3 : Vec 2 := fun i => if i = 0 then 3 / 2 else 1 / 4

/-- The gradient-delta vector `(1/2, 3/4)` of the rounding counterexample
(both entries exactly representable at two significant bits). -/
def gC3n : Vec 2 := fun i => if i = 0 then 1 / 2 else 3 / 4

/-- The step-direction vector `(3/4, 2)` of the rounding counterexample
(both entries exactly representable at two significant bits). -/
def dC3n : Vec 2 := fun i => if i = 0 then 3 / 4 else 2

end RKTK

namespace RKTK

/-- Claim C3 is false as stated: under per-operation rounding the BFGS
update does not preserve symmetry even in the program's own rounding mode.
With the identity input matrix, gradient delta `(1/2, 3/4)`, step size
`1`, step direction `(3/4, 2)`, and every elementary operation rounded to
nearest with ties to even at two significant bits (`rndNE2`, the
`MPFR_RNDN` behaviour at precision 2), the pipeline gives
`κ = (-1/16, -3/4)` and `α = -1/2`, and then the `(0,1)` entry computes
`fl(d_0·κ_1 + fl(κ_0·d_1)) = fl(-9/16 - 1/8) = fl(-11/16) = -3/4`
while the `(1,0)` entry computes
`fl(d_1·κ_0 + fl(κ_1·d_0)) = fl(-1/8 + fl(-9/16)) = fl(-1/8 - 1/2) =
fl(-5/8) = -1/2` (the inner product `-9/16` rounds to `-1/2`, and the
outer `-5/8` is a tie that resolves to the even mantissa), so the updated
matrix has `H'[0][1] = 3/8` but `H'[1][0] = 1/4`. -/
theorem C3_counterexample :
    (∀ i j, identityMat 2 i j = identityMat 2 j i) ∧
    ¬(∀ i j, update_inverse_hessian rndNE2 (identityMat 2) gC3n 1 dC3n i j =
        update_inverse_hessian rndNE2 (identityMat 2) gC3n 1 dC3n j i) := by
  constructor
  · intro i j
    fin_cases i <;> fin_cases j <;> norm_num [identityMat]
  · intro h
    have h01 := h 0 1
    have r01 : rndNE2 0 = 0 := by norm_num [rndNE2]
    have r02 : rndNE2 (1 / 2) = 1 / 2 := by norm_num [rndNE2, rndNE2Pos, exp2B]
    have r03 : rndNE2 (3 / 4) = 3 / 4 := by norm_num [rndNE2, rndNE2Pos, exp2B]
    have r04 : rndNE2 (1 / 4) = 1 / 4 := by norm_num [rndNE2, rndNE2Pos, exp2B]
    have r05 : rndNE2 (13 / 16) = 3 / 4 := by norm_num [rndNE2, rndNE2Pos, exp2B]
    have r06 : rndNE2 (3 / 8) = 3 / 8 := by norm_num [rndNE2, rndNE2Pos, exp2B]
    have r07 : rndNE2 (15 / 8) = 2 := by norm_num [rndNE2, rndNE2Pos, exp2B]
    have r08 : rndNE2 2 = 2 := by norm_num [rndNE2, rndNE2Pos, exp2B]
    have r09 : rndNE2 4 = 4 := by norm_num [rndNE2, rndNE2Pos, exp2B]
    have r10 : rndNE2 (11 / 4) = 3 := by norm_num [rndNE2, rndNE2Pos, exp2B]
    have r11 : rndNE2 (3 / 2) = 3 / 2 := by norm_num [rndNE2, rndNE2Pos, exp2B]
    have r12 : rndNE2 (1 / 16) = 1 / 16 := by norm_num [rndNE2, rndNE2Pos, exp2B]
    have r13 : rndNE2 (-(1 / 8)) = -(1 / 8) := by norm_num [rndNE2, rndNE2Pos, exp2B]
    have r14 : rndNE2 (-(11 / 16)) = -(3 / 4) := by norm_num [rndNE2, rndNE2Pos, exp2B]
    have r15 : rndNE2 (-(9 / 16)) = -(1 / 2) := by norm_num [rndNE2, rndNE2Pos, exp2B]
    have r16 : rndNE2 (-(5 / 8)) = -(1 / 2) := by norm_num [rndNE2, rndNE2Pos, exp2B]
    have e1 : update_inverse_hessian rndNE2 (identityMat 2) gC3n 1 dC3n 0 1 = 3 / 8 := by
      norm_num [update_inverse_hessian, matVecFl, dotFl, chainFma, ofFnL,
        identityMat, gC3n, dC3n, r01, r02, r03, r04, r05, r06, r07, r08,
        r09, r10, r11, r12, r13, r14, r15, r16]
    have e2 : update_inverse_hessian rndNE2 (identityMat 2) gC3n 1 dC3n 1 0 = 1 / 4 := by
      norm_num [update_inverse_hessian, matVecFl, dotFl, chainFma, ofFnL,
        identityMat, gC3n, dC3n, r01, r02, r03, r04, r05, r06, r07, r08,
        r09, r10, r11, r12, r13, r14, r15, r16]
    rw [e1, e2] at h01
    norm_num at h01

/-- Claim C3, amended: the update preserves symmetry when every elementary
operation is exact (rounding is the identity); under genuine per-operation
rounding symmetry can be lost (see the counterexample).  With exact
arithmetic the `(i,j)` and `(j,i)` entries receive the same correction
`α·(κ_i·d_j + d_i·κ_j)`, so a symmetric matrix stays symmetric. -/
theorem C3_symmetry_exact_arithmetic {n : ℕ} (H : Mat n) (g : Vec n)
    (s : ℚ) (d : Vec n) (hsym : ∀ i j, H i j = H j i) (i j : Fin n) :
    update_inverse_hessian id H g s d i j = update_inverse_hessian id H g s d j i := by
  simp only [update_inverse_hessian, id_eq]
  rw [hsym i j]
  ring

/-- Witness for the amended claim C3 at the concrete symmetric matrix
`[[1, 1/2], [1/2, 3/2]]`, with exact arithmetic. -/
theorem C3_symmetry_exact_arithmetic_witness :
    update_inverse_hessian id hC3 gC3 (1 / 2) dC3 0 1 =
      update_inverse_hessian id hC3 gC3 (1 / 2) dC3 1 0 :=
  C3_symmetry_exact_arithmetic hC3 gC3 (1 / 2) dC3
    (by intro i j; fin_cases i <;> fin_cases j <;> norm_num [hC3]) 0 1

end RKTK

namespace RKTK

/-- The per-run state owned by `BFGSOptimizer` (`nonlinear_optimizers.hpp`,
data members at lines 35-66).  The five `uuid` segments and the mutable
numeric workspace are all fields; the immutable configuration
(`prec`, `rnd`) lives in the embedding parameters. -/
structure BFGSState (n : ℕ) where
  x : Vec n
  x_new : Vec n
  x_norm : ℚ
  x_new_norm : ℚ
  func : ℚ
  func_new : ℚ
  grad : Vec n
  grad_new : Vec n
  grad_norm : ℚ
  grad_new_norm : ℚ
  grad_delta : Vec n
  step_size : ℚ
  step_size_new : ℚ
  step_dir : Vec n
  hess_inv : Mat n
  iter_count : ℕ

/-- `BFGSOptimizer::objective_function_has_decreased`:
`mpfr_less_p(func_new, func)`. -/
def objectiveHasDecreased {n : ℕ} (st : BFGSState n) : Prop :=
  st.func_new < st.func

instance {n : ℕ} (st : BFGSState n) : Decidable (objectiveHasDecreased st) := by
  unfold objectiveHasDecreased
  infer_instance

/-- `BFGSOptimizer::shift` (`nonlinear_optimizers.hpp` lines 330-338):
`x.swap(x_new)`, `mpfr_set(x_norm, x_new_norm)`, `mpfr_set(func, func_new)`,
`grad.swap(grad_new)`, `mpfr_set(grad_norm, grad_new_norm)`,
`mpfr_set(step_size, step_size_new)`, `++iter_count`.  All the `mpfr_set`
calls copy between variables of the same precision and are exact. -/
def shiftFn {n : ℕ} (st : BFGSState n) : BFGSState n :=
  { st with
    x := st.x_new
    x_new := st.x
    x_norm := st.x_new_norm
    func := st.func_new
    grad := st.grad_new
    grad_new := st.grad
    grad_norm := st.grad_new_norm
    step_size := st.step_size_new
    iter_count := st.iter_count + 1 }

/-- A concrete one-dimensional optimizer state whose candidate point differs
from its current point, used to exhibit the effect of the buffer swap in
`shift()`. -/
def stC6 : BFGSState 1 where
  x := fun _ => 3
  x_new := fun _ => 7
  x_norm := 3
  x_new_norm := 7
  func := 5
  func_new := 4
  grad := fun _ => 1
  grad_new := fun _ => 2
  grad_norm := 1
  grad_new_norm := 2
  grad_delta := fun _ => 1
  step_size := 1
  step_size_new := 2
  step_dir := fun _ => -1
  hess_inv := fun _ _ => 1
  iter_count := 10

end RKTK

namespace RKTK

/-- Claim C6 is false as stated in its frame part: `shift()` does not leave
everything besides the listed commits unchanged, because `x.swap(x_new)`
and `grad.swap(grad_new)` are swaps, not copies.  Concretely, starting from
a state whose current point is `(3)` and whose candidate point is `(7)`,
after `shift()` the candidate slot `x_new` holds `3`, not its previous
value `7` (and likewise `grad_new` holds the previous current gradient). -/
theorem C6_counterexample :
    (shiftFn stC6).x_new 0 ≠ stC6.x_new 0 ∧ (shiftFn stC6).grad_new 0 ≠ stC6.grad_new 0 := by
  constructor <;> norm_num [shiftFn, stC6]

/-- Claim C6, amended: `shift()` commits the candidate state into the
current slot and increments the iteration counter by exactly one — after
`shift()` the current objective value exactly equals the `func_new`
produced by the preceding `step()`, and the current point, gradient, norms
and step size equal their candidate counterparts; the point and gradient
buffers are exchanged by a swap, so the candidate point and gradient slots
receive the previous current point and gradient; every other field — in
particular the inverse Hessian, the candidate norms, the candidate
objective value, the candidate step size, `grad_delta` and `step_dir` —
is unchanged. -/
theorem C6_shift_commits {n : ℕ} (st : BFGSState n) :
    (shiftFn st).func = st.func_new ∧
    (shiftFn st).x = st.x_new ∧
    (shiftFn st).x_norm = st.x_new_norm ∧
    (shiftFn st).grad = st.grad_new ∧
    (shiftFn st).grad_norm = st.grad_new_norm ∧
    (shiftFn st).step_size = st.step_size_new ∧
    (shiftFn st).iter_count = st.iter_count + 1 ∧
    (shiftFn st).x_new = st.x ∧
    (shiftFn st).grad_new = st.grad ∧
    (shiftFn st).x_new_norm = st.x_new_norm ∧
    (shiftFn st).func_new = st.func_new ∧
    (shiftFn st).grad_new_norm = st.grad_new_norm ∧
    (shiftFn st).step_size_new = st.step_size_new ∧
    (shiftFn st).grad_delta = st.grad_delta ∧
    (shiftFn st).step_dir = st.step_dir ∧
    (shiftFn st).hess_inv = st.hess_inv := by
  refine ⟨rfl, rfl, rfl, rfl, rfl, rfl, rfl, rfl, rfl, rfl, rfl, rfl, rfl, rfl, rfl, rfl⟩

end RKTK

namespace RKTK

/-- The truncation performed by `static_cast<int>` on an in-range value:
round toward zero. -/
def ratTrunc (q : ℚ) : ℤ := if q < 0 then -(Int.floor (-q)) else Int.floor q

/-- The quality-score computation of `BFGSOptimizer::write_to_file`
(`nonlinear_optimizers.hpp` lines 203-210), as a function of the value
`w` that the C++ code obtains as `-100.0L * std::log10(v)` (with `v` the
objective value for the `FFFF` field and the gradient norm for the `GGGG`
field): `static_cast<int>` truncates `w` toward zero, then the two `if`
statements clamp the result into `[0, 9999]`. -/
def writtenQualityScore (w : ℚ) : ℤ :=
  let s := ratTrunc w
  let s1 := if s < 0 then 0 else s
  if 9999 < s1 then 9999 else s1

/-- The quality score exactly as claim C8 words it:
`clamp(round(-100·log10(v)), 0, 9999)`, again as a function of the
pre-cast value `w = -100·log10(v)`, with `round` denoting rounding to the
nearest integer. -/
def claimedQualityScore (w : ℚ) : ℤ := min 9999 (max 0 (round w))

end RKTK

namespace RKTK

/-- Claim C8 is false as stated: the score is obtained by `static_cast<int>`,
which truncates toward zero, not by rounding to the nearest integer.  At
`w = 27/10` (that is, an objective value `v` with `-100·log10(v) = 2.7`)
the written filename field is `0002`, while `clamp(round(2.7), 0, 9999)`
is `3`. -/
theorem C8_counterexample :
    writtenQualityScore (27 / 10) ≠ claimedQualityScore (27 / 10) := by
  have h1 : writtenQualityScore (27 / 10) = 2 := by
    norm_num [writtenQualityScore, ratTrunc]
  have h2 : claimedQualityScore (27 / 10) = 3 := by
    norm_num [claimedQualityScore, round_eq]
  rw [h1, h2]
  norm_num

/-- Claim C8, amended: each score field equals
`clamp(trunc(-100·log10(v)), 0, 9999)` where `trunc` rounds toward zero
(the behaviour of `static_cast<int>`), and the field printed for it is the
4-digit zero-padded decimal form of that score (`std::setw(4)` with fill
`'0'`; the clamped score always fits in four digits). -/
theorem C8_score_is_clamped_truncation (w : ℚ) :
    writtenQualityScore w = min 9999 (max 0 (ratTrunc w)) ∧
    0 ≤ writtenQualityScore w ∧ writtenQualityScore w ≤ 9999 := by
  unfold writtenQualityScore
  rcases lt_or_le (ratTrunc w) 0 with h | h
  · simp only [if_pos h]
    norm_num
    omega
  · simp only [if_neg (not_lt.mpr h)]
    rcases lt_or_le (9999 : ℤ) (ratTrunc w) with h2 | h2
    · simp only [if_pos h2]
      omega
    · simp only [if_neg (not_lt.mpr h2)]
      omega

end RKTK

namespace RKTK

/-- `elementwise_equal` from `linalg_subroutines.cpp` (also
`MPFRVector::operator==`): `mpfr_equal_p` on every pair of entries.  On
rationals numeric equality of every entry is plain equality (there are no
NaNs in the model; the program treats NaN as fatal). -/
def elementwise_equal {n : ℕ} (v w : Vec n) : Prop := ∀ i, v i = w i

instance {n : ℕ} (v w : Vec n) : Decidable (elementwise_equal v w) := by
  unfold elementwise_equal
  infer_instance

/-- The quadratic-fit step of the increasing branch
(`bfgs_subroutines.cpp` lines 63-72 and `QuadraticLineSearcher.hpp`
lines 107-116): with `f` the value at step `0`, `f1` the value at the last
kept step `s`, and `f2` the value at `2s`,
`denom = fl(fl(2·f1 - f2) - f)`, `numer = fl(fl(4·f1 - f2) - fl(3·f))`
(`mpfr_mul_2ui`/`mpfr_mul_2ui` by powers of two are exact, `mpfr_mul_ui`
by 3 rounds), and the fit step is `fl(fl((s/2)·numer) / denom)`. -/
def incFitStep (fl : ℚ → ℚ) (f f1 f2 s : ℚ) : ℚ :=
  let denom := fl (fl (2 * f1 - f2) - f)
  let numer := fl (fl (4 * f1 - f2) - fl (3 * f))
  fl (fl (s / 2 * numer) / denom)

/-- The guard of the increasing branch (`bfgs_subroutines.cpp` lines 73-77):
if the fit step is non-positive (`mpfr_sgn <= 0`) or not strictly below the
last bracketing step `2s` (`!mpfr_less_p`), the routine returns the kept
step `s` (the `mpfr_swap` with `step_size`); otherwise the fit step. -/
def incFinish (fl : ℚ → ℚ) (f f1 f2 s : ℚ) : ℚ :=
  let q := incFitStep fl f f1 f2 s
  if q ≤ 0 ∨ ¬q < 2 * s then s else q

/-- The quadratic-fit step of the decreasing branch
(`bfgs_subroutines.cpp` lines 106-115 and `QuadraticLineSearcher.hpp`
lines 132-141): with `f1` the value at the last non-improving step `s` and
`f2` the improving value at `s/2`,
`denom = fl(fl(f1 - 2·f2) + f)`, `numer = fl(fl(f1 - 4·f2) + fl(3·f))`,
and the fit step is `fl(fl((s/4)·numer) / denom)`. -/
def decFitStep (fl : ℚ → ℚ) (f f1 f2 s : ℚ) : ℚ :=
  let denom := fl (fl (f1 - 2 * f2) + f)
  let numer := fl (fl (f1 - 4 * f2) + fl (3 * f))
  fl (fl (s / 4 * numer) / denom)

/-- The guard of the decreasing branch (`bfgs_subroutines.cpp`
lines 116-119): if the fit step is non-positive or not strictly below the
last bracketing step `s`, the routine falls back to `s/2`
(`mpfr_div_2ui`, exact). -/
def decFinish (fl : ℚ → ℚ) (f f1 f2 s : ℚ) : ℚ :=
  let q := decFitStep fl f f1 f2 s
  if q ≤ 0 ∨ ¬q < s then s / 2 else q

/-- The doubling loop of the increasing branch of `quadratic_line_search`
(`bfgs_subroutines.cpp` lines 37-61).  `rem` counts the remaining doublings
the `num_increases >= 4` test still allows (the loop is entered with
`rem = 3`: after the fourth kept doubling the routine returns the doubled
step outright).  On exit through `mpfr_greaterequal_p(f2, f1)` the routine
proceeds to `incFinish`. -/
def qlsFreeIncLoop (fl : ℚ → ℚ) {n : ℕ} (φ : Vec n → ℚ) (x : Vec n) (f : ℚ)
    (dx : Vec n) : ℕ → ℚ → ℚ → ℚ
  | rem, step, f1 =>
    let next := 2 * step
    let f2 := φ (fun i => fl (next * dx i + x i))
    if f1 ≤ f2 then incFinish fl f f1 f2 step
    else
      match rem with
      | 0 => next
      | r + 1 => qlsFreeIncLoop fl φ x f dx r next f2

/-- The halving loop of the decreasing branch of `quadratic_line_search`
(`bfgs_subroutines.cpp` lines 79-105), fuel-indexed: halve, test the new
point for bit-for-bit equality with `x` (return step `0` if so), evaluate,
exit to `decFinish` on a strict improvement over `f`, return step `0` if
the halved step reached exactly zero, otherwise keep halving. -/
def qlsFreeDecLoop (fl : ℚ → ℚ) {n : ℕ} (φ : Vec n → ℚ) (x : Vec n) (f : ℚ)
    (dx : Vec n) : ℕ → ℚ → ℚ → Option ℚ
  | 0, _, _ => none
  | fuel + 1, step, f1 =>
    let next := step / 2
    let p2 := fun i => fl (next * dx i + x i)
    if elementwise_equal x p2 then some 0
    else
      let f2 := φ p2
      if f2 < f then some (decFinish fl f f1 f2 step)
      else if next = 0 then some 0
      else qlsFreeDecLoop fl φ x f dx fuel next f2

/-- `quadratic_line_search` from `bfgs_subroutines.cpp` (lines 15-121), the
routine `BFGSOptimizer::step` calls.  It returns only the chosen step size
(the objective value at that step is evaluated by the caller).  The
objective function is the abstract parameter `φ`; every candidate point is
`fl(step·dx[i] + x[i])` (`mpfr_fma`).  `none` means the halving loop ran
out of fuel. -/
def quadratic_line_search (fl : ℚ → ℚ) {n : ℕ} (φ : Vec n → ℚ) (x : Vec n)
    (f : ℚ) (ini : ℚ) (dx : Vec n) (fuel : ℕ) : Option ℚ :=
  let f1 := φ (fun i => fl (ini * dx i + x i))
  if f1 < f then some (qlsFreeIncLoop fl φ x f dx 3 ini f1)
  else qlsFreeDecLoop fl φ x f dx fuel ini f1

end RKTK

namespace RKTK

/-- Claim C4: in both branches of the quadratic line search, whenever the
interpolated minimizer step is non-positive or falls outside the
bracketing interval, the search falls back to half the last bracketing
step.  In the increasing branch the bracket is `[0, 2s]` (`s` the last
kept step, `2s` the final doubled step), and on a non-positive or
out-of-bracket fit the returned step is `s = (2s)/2`; in the decreasing
branch the bracket is `[0, s]` (`s` the last non-improving step) and the
fallback is `s/2` (`mpfr_div_2ui`). -/
theorem C4_fit_guard_fallback (fl : ℚ → ℚ) (f f1 f2 s : ℚ) :
    (incFitStep fl f f1 f2 s ≤ 0 ∨ ¬incFitStep fl f f1 f2 s < 2 * s →
      incFinish fl f f1 f2 s = 2 * s / 2) ∧
    (decFitStep fl f f1 f2 s ≤ 0 ∨ ¬decFitStep fl f f1 f2 s < s →
      decFinish fl f f1 f2 s = s / 2) := by
  constructor
  · intro h
    unfold incFinish
    rw [if_pos h]
    ring
  · intro h
    unfold decFinish
    rw [if_pos h]

/-- Witness for C4 with exact arithmetic: with `f = 0`, `f1 = 1`, `f2 = 4`,
`s = 1` the increasing-branch fit step is `0`, so the guard fires and the
fallback `1 = (2·1)/2` is returned; with `f = 0`, `f1 = 4`, `f2 = 1`,
`s = 1` the decreasing-branch fit step is `0` and the fallback `1/2` is
returned. -/
theorem C4_fit_guard_fallback_witness :
    (incFitStep id 0 1 4 1 ≤ 0 ∨ ¬incFitStep id 0 1 4 1 < 2 * 1) ∧
    incFinish id 0 1 4 1 = 2 * 1 / 2 ∧
    (decFitStep id 0 4 1 1 ≤ 0 ∨ ¬decFitStep id 0 4 1 1 < 1) ∧
    decFinish id 0 4 1 1 = 1 / 2 := by
  have hinc : incFitStep id 0 1 4 1 ≤ 0 ∨ ¬incFitStep id 0 1 4 1 < 2 * 1 := by
    left
    norm_num [incFitStep]
  have hdec : decFitStep id 0 4 1 1 ≤ 0 ∨ ¬decFitStep id 0 4 1 1 < 1 := by
    left
    norm_num [decFitStep]
  refine ⟨hinc, ?_, hdec, ?_⟩
  · exact (C4_fit_guard_fallback id 0 1 4 1).1 hinc
  · exact (C4_fit_guard_fallback id 0 4 1 1).2 hdec

end RKTK

namespace RKTK

/-- The running best (objective value, step size) pair of a
`QuadraticLineSearcher` (the references `best_objective_value`,
`best_step_size` the constructor caches). -/
structure SState where
  bestVal : ℚ
  bestStep : ℚ

/-- One evaluation event during a line search: the step `t` that was
proposed, whether the candidate point differed from `x0` (the `changed`
out-parameter of `evaluate_objective_function`), and the objective value
delivered for it (`f0` itself when the evaluation was skipped). -/
structure Ev where
  t : ℚ
  changed : Bool
  value : ℚ

/-- The `QuadraticLineSearcher` constructor (lines 30-48): the best pair is
initialized to `(f0, 0)` (`mpfr_set(best_objective_value, f0)`,
`mpfr_set_zero(best_step_size)`). -/
def searcherInit (f0 : ℚ) : SState := ⟨f0, 0⟩

/-- `QuadraticLineSearcher::evaluate_objective_function`
(`QuadraticLineSearcher.hpp` lines 66-83): set
`xt[i] = fl(t·dx[i] + x0[i])` (`set_axpy`); if `x0 == xt` report
`changed = false` and reuse `f0` without evaluating; otherwise evaluate
`φ(xt)` and overwrite the running best pair exactly when the new value is
strictly smaller.  Returns the event produced and the updated best pair. -/
def evaluateObj (fl : ℚ → ℚ) {n : ℕ} (φ : Vec n → ℚ) (x0 : Vec n) (f0 : ℚ)
    (dx : Vec n) (t : ℚ) (st : SState) : Ev × SState :=
  let xt := fun i => fl (t * dx i + x0 i)
  if elementwise_equal x0 xt then (⟨t, false, f0⟩, st)
  else
    let v := φ xt
    if v < st.bestVal then (⟨t, true, v⟩, ⟨v, t⟩) else (⟨t, true, v⟩, st)

/-- Outcome of the doubling loop of `QuadraticLineSearcher::search`
(lines 92-106): either the `num_increases >= 4` early return, or the
`mpfr_greaterequal_p(f2, f1)` exit towards the quadratic fit, carrying the
kept step, its value `f1` and the overshooting value `f2`. -/
inductive DoubOut where
  | early (st : SState) (evs : List Ev)
  | brk (step f1 f2 : ℚ) (st : SState) (evs : List Ev)

/-- The doubling loop itself.  `rem` is the number of further doublings the
`num_increases >= 4` test still allows; `search` enters with `rem = 3`
(`num_increases` starts at `0` and the fourth increment triggers the
return). -/
def qlsClassDoubLoop (fl : ℚ → ℚ) {n : ℕ} (φ : Vec n → ℚ) (x0 : Vec n)
    (f0 : ℚ) (dx : Vec n) : ℕ → ℚ → ℚ → SState → List Ev → DoubOut
  | rem, step, f1, st, acc =>
    let r := evaluateObj fl φ x0 f0 dx (2 * step) st
    if f1 ≤ r.1.value then DoubOut.brk step f1 r.1.value r.2 (acc ++ [r.1])
    else
      match rem with
      | 0 => DoubOut.early r.2 (acc ++ [r.1])
      | rem' + 1 => qlsClassDoubLoop fl φ x0 f0 dx rem' (2 * step) r.1.value r.2 (acc ++ [r.1])

/-- Outcome of the halving loop of `QuadraticLineSearcher::search`
(lines 119-131): either the `!changed` immediate return (`stop`), or the
`mpfr_less_p(f2, f0)` exit towards the quadratic fit (`brk`), carrying the
last non-improving step, its value `f1` and the improving value `f2`. -/
inductive HalvOut where
  | stop (st : SState) (evs : List Ev)
  | brk (step f1 f2 : ℚ) (st : SState) (evs : List Ev)

/-- The halving loop itself, fuel-indexed (the C++ loop terminates through
floating-point underflow; over exact rationals it need not, so `none`
reports fuel exhaustion, never a program result). -/
def qlsClassHalvLoop (fl : ℚ → ℚ) {n : ℕ} (φ : Vec n → ℚ) (x0 : Vec n)
    (f0 : ℚ) (dx : Vec n) : ℕ → ℚ → ℚ → SState → List Ev → Option HalvOut
  | 0, _, _, _, _ => none
  | fuel + 1, step, f1, st, acc =>
    let r := evaluateObj fl φ x0 f0 dx (step / 2) st
    if r.1.changed = false then some (HalvOut.stop r.2 (acc ++ [r.1]))
    else if r.1.value < f0 then some (HalvOut.brk step f1 r.1.value r.2 (acc ++ [r.1]))
    else qlsClassHalvLoop fl φ x0 f0 dx fuel (step / 2) r.1.value r.2 (acc ++ [r.1])

/-- How one call of `QuadraticLineSearcher::search` returned: through the
`!changed` return inside the halving loop (`noChange`), through the
`num_increases >= 4` return (`earlyDouble`), or by evaluating the
quadratic-fit step and falling off the end (`fitDone`). -/
inductive QLSExit where
  | noChange
  | earlyDouble
  | fitDone

/-- `QuadraticLineSearcher::search` (`QuadraticLineSearcher.hpp`
lines 87-144).  The returned pair of the searcher is the `SState` (the
`best_objective_value` / `best_step_size` references); the list collects
every evaluation event of the call in order, and the `QLSExit` tag records
which return path ended the call.  The quadratic-fit steps reuse
`incFitStep` / `decFitStep`, which are the same operation sequences as in
the free-standing `quadratic_line_search` — but here the fit step is
evaluated through `evaluate_objective_function` with no guard, the best
pair supplying the protection. -/
def qlsClassSearch (fl : ℚ → ℚ) {n : ℕ} (φ : Vec n → ℚ) (x0 : Vec n)
    (f0 : ℚ) (dx : Vec n) (fuel : ℕ) (ini : ℚ) :
    Option (SState × List Ev × QLSExit) :=
  let r1 := evaluateObj fl φ x0 f0 dx ini (searcherInit f0)
  if r1.1.value < f0 then
    match qlsClassDoubLoop fl φ x0 f0 dx 3 ini r1.1.value r1.2 [r1.1] with
    | DoubOut.early st evs => some (st, evs, QLSExit.earlyDouble)
    | DoubOut.brk step f1 f2 st evs =>
      let r2 := evaluateObj fl φ x0 f0 dx (incFitStep fl f0 f1 f2 step) st
      some (r2.2, evs ++ [r2.1], QLSExit.fitDone)
  else
    match qlsClassHalvLoop fl φ x0 f0 dx fuel ini r1.1.value r1.2 [r1.1] with
    | none => none
    | some (HalvOut.stop st evs) => some (st, evs, QLSExit.noChange)
    | some (HalvOut.brk step f1 f2 st evs) =>
      let r2 := evaluateObj fl φ x0 f0 dx (decFitStep fl f0 f1 f2 step) st
      some (r2.2, evs ++ [r2.1], QLSExit.fitDone)

/-- The best-pair invariant of one line-search call: the running best value
never exceeds `f0`, never exceeds any value delivered by an evaluation
event so far, and the best pair either is still the initial `(f0, 0)` or
was delivered by some actual (point-changing) evaluation event. -/
def BestInv (f0 : ℚ) (evs : List Ev) (st : SState) : Prop :=
  st.bestVal ≤ f0 ∧ (∀ e ∈ evs, st.bestVal ≤ e.value) ∧
    ((st.bestStep = 0 ∧ st.bestVal = f0) ∨
      ∃ e ∈ evs, e.changed = true ∧ e.t = st.bestStep ∧ e.value = st.bestVal)

end RKTK

namespace RKTK

/-- The optimizer state a `DoubOut` carries. -/
def DoubOut.theState : DoubOut → SState
  | DoubOut.early st _ => st
  | DoubOut.brk _ _ _ st _ => st

/-- The event list a `DoubOut` carries. -/
def DoubOut.theEvs : DoubOut → List Ev
  | DoubOut.early _ evs => evs
  | DoubOut.brk _ _ _ _ evs => evs

/-- The optimizer state a `HalvOut` carries. -/
def HalvOut.theState : HalvOut → SState
  | HalvOut.stop st _ => st
  | HalvOut.brk _ _ _ st _ => st

/-- The event list a `HalvOut` carries. -/
def HalvOut.theEvs : HalvOut → List Ev
  | HalvOut.stop _ evs => evs
  | HalvOut.brk _ _ _ _ evs => evs

/-- One call of `evaluate_objective_function` preserves the best-pair
invariant, the new event included. -/
theorem bestInv_evaluate (fl : ℚ → ℚ) {n : ℕ} (φ : Vec n → ℚ) (x0 : Vec n)
    (f0 : ℚ) (dx : Vec n) (t : ℚ) (st : SState) (evs : List Ev)
    (h : BestInv f0 evs st) :
    BestInv f0 (evs ++ [(evaluateObj fl φ x0 f0 dx t st).1])
      (evaluateObj fl φ x0 f0 dx t st).2 := by
  obtain ⟨h1, h2, h3⟩ := h
  simp only [evaluateObj]
  split_ifs with hskip himp
  · refine ⟨h1, ?_, ?_⟩
    · intro e he
      rcases List.mem_append.mp he with he | he
      · exact h2 e he
      · rw [List.mem_singleton.mp he]
        exact h1
    · rcases h3 with h3 | ⟨e, he, hc⟩
      · exact Or.inl h3
      · exact Or.inr ⟨e, List.mem_append_left _ he, hc⟩
  · refine ⟨le_trans (le_of_lt himp) h1, ?_, ?_⟩
    · intro e he
      rcases List.mem_append.mp he with he | he
      · exact le_trans (le_of_lt himp) (h2 e he)
      · rw [List.mem_singleton.mp he]
    · exact Or.inr ⟨⟨t, true, φ fun i => fl (t * dx i + x0 i)⟩,
        List.mem_append_right _ (List.mem_singleton.mpr rfl), rfl, rfl, rfl⟩
  · refine ⟨h1, ?_, ?_⟩
    · intro e he
      rcases List.mem_append.mp he with he | he
      · exact h2 e he
      · rw [List.mem_singleton.mp he]
        exact le_of_not_lt himp
    · rcases h3 with h3 | ⟨e, he, hc⟩
      · exact Or.inl h3
      · exact Or.inr ⟨e, List.mem_append_left _ he, hc⟩

/-- The doubling loop preserves the best-pair invariant. -/
theorem bestInv_doubLoop (fl : ℚ → ℚ) {n : ℕ} (φ : Vec n → ℚ) (x0 : Vec n)
    (f0 : ℚ) (dx : Vec n) :
    ∀ (rem : ℕ) (step f1 : ℚ) (st : SState) (acc : List Ev),
      BestInv f0 acc st →
      BestInv f0 (qlsClassDoubLoop fl φ x0 f0 dx rem step f1 st acc).theEvs
        (qlsClassDoubLoop fl φ x0 f0 dx rem step f1 st acc).theState := by
  intro rem
  induction rem with
  | zero =>
    intro step f1 st acc h
    simp only [qlsClassDoubLoop]
    split_ifs with hge
    · exact bestInv_evaluate fl φ x0 f0 dx (2 * step) st acc h
    · exact bestInv_evaluate fl φ x0 f0 dx (2 * step) st acc h
  | succ rem' ih =>
    intro step f1 st acc h
    simp only [qlsClassDoubLoop]
    split_ifs with hge
    · exact bestInv_evaluate fl φ x0 f0 dx (2 * step) st acc h
    · exact ih (2 * step) _ _ _ (bestInv_evaluate fl φ x0 f0 dx (2 * step) st acc h)

/-- The halving loop preserves the best-pair invariant. -/
theorem bestInv_halvLoop (fl : ℚ → ℚ) {n : ℕ} (φ : Vec n → ℚ) (x0 : Vec n)
    (f0 : ℚ) (dx : Vec n) :
    ∀ (fuel : ℕ) (step f1 : ℚ) (st : SState) (acc : List Ev),
      BestInv f0 acc st →
      ∀ out, qlsClassHalvLoop fl φ x0 f0 dx fuel step f1 st acc = some out →
        BestInv f0 out.theEvs out.theState := by
  intro fuel
  induction fuel with
  | zero =>
    intro step f1 st acc _ out hout
    simp only [qlsClassHalvLoop] at hout
    exact absurd hout (Option.noConfusion)
  | succ fuel' ih =>
    intro step f1 st acc h out hout
    simp only [qlsClassHalvLoop] at hout
    split_ifs at hout with hch hlt
    · rw [← Option.some.inj hout]
      exact bestInv_evaluate fl φ x0 f0 dx (step / 2) st acc h
    · rw [← Option.some.inj hout]
      exact bestInv_evaluate fl φ x0 f0 dx (step / 2) st acc h
    · exact ih (step / 2) _ _ _ (bestInv_evaluate fl φ x0 f0 dx (step / 2) st acc h) out hout

end RKTK

namespace RKTK

/-- Claim C1: the `(value, step)` pair the line search returns is the best
pair observed anywhere during that search call.  For every terminating run
of `QuadraticLineSearcher::search` the returned best objective value never
exceeds `f0`, never exceeds the objective value delivered at any
evaluation point visited during the call (in particular the smallest value
sampled), and the returned pair either is the initial `(f0, 0)` (no
evaluation improved on `f0`) or was itself delivered by one of the
point-changing evaluations of the call. -/
theorem C1_search_returns_best_pair (fl : ℚ → ℚ) {n : ℕ} (φ : Vec n → ℚ)
    (x0 : Vec n) (f0 : ℚ) (dx : Vec n) (fuel : ℕ) (ini : ℚ)
    (st : SState) (evs : List Ev) (ex : QLSExit)
    (h : qlsClassSearch fl φ x0 f0 dx fuel ini = some (st, evs, ex)) :
    st.bestVal ≤ f0 ∧ (∀ e ∈ evs, st.bestVal ≤ e.value) ∧
      ((st.bestStep = 0 ∧ st.bestVal = f0) ∨
        ∃ e ∈ evs, e.changed = true ∧ e.t = st.bestStep ∧ e.value = st.bestVal) := by
  have h0 : BestInv f0 [] (searcherInit f0) :=
    ⟨le_refl _, fun e he => absurd he (List.not_mem_nil e), Or.inl ⟨rfl, rfl⟩⟩
  have h1 := bestInv_evaluate fl φ x0 f0 dx ini (searcherInit f0) [] h0
  rw [List.nil_append] at h1
  have hI0 := bestInv_doubLoop fl φ x0 f0 dx 3 ini
    (evaluateObj fl φ x0 f0 dx ini (searcherInit f0)).1.value
    (evaluateObj fl φ x0 f0 dx ini (searcherInit f0)).2
    [(evaluateObj fl φ x0 f0 dx ini (searcherInit f0)).1] h1
  simp only [qlsClassSearch] at h
  split_ifs at h with hlt
  · rcases hD : qlsClassDoubLoop fl φ x0 f0 dx 3 ini
        (evaluateObj fl φ x0 f0 dx ini (searcherInit f0)).1.value
        (evaluateObj fl φ x0 f0 dx ini (searcherInit f0)).2
        [(evaluateObj fl φ x0 f0 dx ini (searcherInit f0)).1] with ⟨st', evs'⟩ | ⟨s', g1, g2, st', evs'⟩
    · rw [hD] at h hI0
      simp only [DoubOut.theEvs, DoubOut.theState] at hI0
      have hh : st' = st ∧ evs' = evs ∧ QLSExit.earlyDouble = ex := by simpa using h
      obtain ⟨rfl, rfl, _⟩ := hh
      exact hI0
    · rw [hD] at h hI0
      simp only [DoubOut.theEvs, DoubOut.theState] at hI0
      have hI2 := bestInv_evaluate fl φ x0 f0 dx (incFitStep fl f0 g1 g2 s') st' evs' hI0
      have hh : (evaluateObj fl φ x0 f0 dx (incFitStep fl f0 g1 g2 s') st').2 = st ∧
          evs' ++ [(evaluateObj fl φ x0 f0 dx (incFitStep fl f0 g1 g2 s') st').1] = evs ∧
          QLSExit.fitDone = ex := by simpa using h
      obtain ⟨hh1, hh2, _⟩ := hh
      rw [hh1, hh2] at hI2
      exact hI2
  · rcases hH : qlsClassHalvLoop fl φ x0 f0 dx fuel ini
        (evaluateObj fl φ x0 f0 dx ini (searcherInit f0)).1.value
        (evaluateObj fl φ x0 f0 dx ini (searcherInit f0)).2
        [(evaluateObj fl φ x0 f0 dx ini (searcherInit f0)).1] with _ | out
    · rw [hH] at h
      simp at h
    · rw [hH] at h
      have hI := bestInv_halvLoop fl φ x0 f0 dx fuel ini _ _ _ h1 out hH
      rcases out with ⟨st', evs'⟩ | ⟨s', g1, g2, st', evs'⟩
      · simp only [HalvOut.theEvs, HalvOut.theState] at hI
        have hh : st' = st ∧ evs' = evs ∧ QLSExit.noChange = ex := by simpa using h
        obtain ⟨rfl, rfl, _⟩ := hh
        exact hI
      · simp only [HalvOut.theEvs, HalvOut.theState] at hI
        have hI2 := bestInv_evaluate fl φ x0 f0 dx (decFitStep fl f0 g1 g2 s') st' evs' hI
        have hh : (evaluateObj fl φ x0 f0 dx (decFitStep fl f0 g1 g2 s') st').2 = st ∧
            evs' ++ [(evaluateObj fl φ x0 f0 dx (decFitStep fl f0 g1 g2 s') st').1] = evs ∧
            QLSExit.fitDone = ex := by simpa using h
        obtain ⟨hh1, hh2, _⟩ := hh
        rw [hh1, hh2] at hI2
        exact hI2

end RKTK

namespace RKTK

/-- Witness for C1: a concrete one-dimensional search (exact arithmetic,
constant-zero objective, `x0 = (0)`, `dx = (1)`, `f0 = 1`, initial step 1)
runs through the doubling branch and the quadratic fit, returning the best
pair `(0, 1)` delivered by the first evaluation. -/
theorem C1_search_returns_best_pair_witness :
    qlsClassSearch id (fun _ : Vec 1 => 0) (fun _ => 0) 1 (fun _ => 1) 1 1 =
      some (⟨0, 1⟩, [⟨1, true, 0⟩, ⟨2, true, 0⟩, ⟨3 / 2, true, 0⟩], QLSExit.fitDone) ∧
    (SState.bestVal ⟨0, 1⟩ ≤ 1 ∧
      (∀ e ∈ [(⟨1, true, 0⟩ : Ev), ⟨2, true, 0⟩, ⟨3 / 2, true, 0⟩],
        SState.bestVal ⟨0, 1⟩ ≤ e.value) ∧
      ((SState.bestStep ⟨0, 1⟩ = 0 ∧ SState.bestVal ⟨0, 1⟩ = 1) ∨
        ∃ e ∈ [(⟨1, true, 0⟩ : Ev), ⟨2, true, 0⟩, ⟨3 / 2, true, 0⟩],
          e.changed = true ∧ e.t = SState.bestStep ⟨0, 1⟩ ∧
            e.value = SState.bestVal ⟨0, 1⟩)) := by
  have hrun : qlsClassSearch id (fun _ : Vec 1 => 0) (fun _ => 0) 1 (fun _ => 1) 1 1 =
      some (⟨0, 1⟩, [⟨1, true, 0⟩, ⟨2, true, 0⟩, ⟨3 / 2, true, 0⟩], QLSExit.fitDone) := by
    norm_num [qlsClassSearch, evaluateObj, qlsClassDoubLoop, searcherInit,
      elementwise_equal, incFitStep, Fin.forall_fin_one]
  exact ⟨hrun, C1_search_returns_best_pair id (fun _ : Vec 1 => 0) (fun _ => 0) 1
    (fun _ => 1) 1 1 ⟨0, 1⟩ [⟨1, true, 0⟩, ⟨2, true, 0⟩, ⟨3 / 2, true, 0⟩]
    QLSExit.fitDone hrun⟩

end RKTK

namespace RKTK

/-- Claim C10: from construction through every point of a search call the
running best pair satisfies: the best value is at most `f0`, and the best
step is zero exactly when no evaluated point has strictly improved on the
best value so far (equivalently — since the best value starts at `f0` and
only ever strictly decreases — exactly when the best value still equals
`f0`).  The pair is initialized to `(f0, 0)` by the constructor, and an
`evaluate_objective_function` call overwrites it only when the evaluated
objective value is strictly less than the current best, recording that
evaluation's value and step.  The hypothesis `hx0` states that the entries
of `x0` are representable at the working precision (rounding them is the
identity), which is what makes a proposed step of exactly `0` always
register as `changed = false`. -/
theorem C10_best_pair_invariant (fl : ℚ → ℚ) {n : ℕ} (φ : Vec n → ℚ)
    (x0 : Vec n) (f0 : ℚ) (dx : Vec n) (hx0 : ∀ i, fl (x0 i) = x0 i) :
    ((searcherInit f0).bestVal ≤ f0 ∧
      ((searcherInit f0).bestStep = 0 ↔ (searcherInit f0).bestVal = f0)) ∧
    ∀ (t : ℚ) (st : SState), st.bestVal ≤ f0 →
      (st.bestStep = 0 ↔ st.bestVal = f0) →
      ((evaluateObj fl φ x0 f0 dx t st).2.bestVal ≤ f0 ∧
        ((evaluateObj fl φ x0 f0 dx t st).2.bestStep = 0 ↔
          (evaluateObj fl φ x0 f0 dx t st).2.bestVal = f0) ∧
        ((evaluateObj fl φ x0 f0 dx t st).2 ≠ st →
          (evaluateObj fl φ x0 f0 dx t st).1.changed = true ∧
          (evaluateObj fl φ x0 f0 dx t st).1.value < st.bestVal ∧
          (evaluateObj fl φ x0 f0 dx t st).2 =
            ⟨(evaluateObj fl φ x0 f0 dx t st).1.value,
              (evaluateObj fl φ x0 f0 dx t st).1.t⟩)) := by
  refine ⟨⟨le_refl _, by simp [searcherInit]⟩, ?_⟩
  intro t st hle hiff
  simp only [evaluateObj]
  split_ifs with hskip himp
  · exact ⟨hle, hiff, fun hne => absurd rfl hne⟩
  · refine ⟨le_trans (le_of_lt himp) hle, ?_, fun _ => ⟨rfl, himp, rfl⟩⟩
    constructor
    · intro ht0
      exfalso
      apply hskip
      intro i
      have ht : t = 0 := ht0
      rw [ht]
      show x0 i = fl (0 * dx i + x0 i)
      rw [zero_mul, zero_add, hx0 i]
    · intro hvf
      exfalso
      exact absurd hvf (ne_of_lt (lt_of_lt_of_le himp hle))
  · exact ⟨hle, hiff, fun hne => absurd rfl hne⟩

/-- Witness for C10 at a concrete instance: exact arithmetic, dimension 1,
`x0 = (1)`, `f0 = 5`, a state `(4, 2)` satisfying the invariant, and a
proposed step `t = 3`. -/
theorem C10_best_pair_invariant_witness :
    ((searcherInit 5).bestVal ≤ 5 ∧
      ((searcherInit 5).bestStep = 0 ↔ (searcherInit 5).bestVal = 5)) ∧
    ((evaluateObj id (fun _ : Vec 1 => 0) (fun _ => 1) 5 (fun _ => 1) 3
        ⟨4, 2⟩).2.bestVal ≤ 5 ∧
      ((evaluateObj id (fun _ : Vec 1 => 0) (fun _ => 1) 5 (fun _ => 1) 3
          ⟨4, 2⟩).2.bestStep = 0 ↔
        (evaluateObj id (fun _ : Vec 1 => 0) (fun _ => 1) 5 (fun _ => 1) 3
          ⟨4, 2⟩).2.bestVal = 5) ∧
      ((evaluateObj id (fun _ : Vec 1 => 0) (fun _ => 1) 5 (fun _ => 1) 3
          ⟨4, 2⟩).2 ≠ ⟨4, 2⟩ →
        (evaluateObj id (fun _ : Vec 1 => 0) (fun _ => 1) 5 (fun _ => 1) 3
          ⟨4, 2⟩).1.changed = true ∧
        (evaluateObj id (fun _ : Vec 1 => 0) (fun _ => 1) 5 (fun _ => 1) 3
          ⟨4, 2⟩).1.value < SState.bestVal ⟨4, 2⟩ ∧
        (evaluateObj id (fun _ : Vec 1 => 0) (fun _ => 1) 5 (fun _ => 1) 3
          ⟨4, 2⟩).2 =
          ⟨(evaluateObj id (fun _ : Vec 1 => 0) (fun _ => 1) 5 (fun _ => 1) 3
              ⟨4, 2⟩).1.value,
            (evaluateObj id (fun _ : Vec 1 => 0) (fun _ => 1) 5 (fun _ => 1) 3
              ⟨4, 2⟩).1.t⟩)) := by
  have h := C10_best_pair_invariant id (fun _ : Vec 1 => 0) (fun _ => 1) 5
    (fun _ => 1) (fun _ => rfl)
  exact ⟨h.1, h.2 3 ⟨4, 2⟩ (by norm_num) (by norm_num)⟩

end RKTK

namespace RKTK

/-- If an evaluation reports `changed = false` (the candidate point was
bit-for-bit equal to `x0`), the objective evaluation was skipped: the best
pair is untouched and the delivered value is the reused `f0`. -/
theorem evaluate_not_changed (fl : ℚ → ℚ) {n : ℕ} (φ : Vec n → ℚ)
    (x0 : Vec n) (f0 : ℚ) (dx : Vec n) (t : ℚ) (st : SState)
    (h : (evaluateObj fl φ x0 f0 dx t st).1.changed = false) :
    (evaluateObj fl φ x0 f0 dx t st).2 = st ∧
      (evaluateObj fl φ x0 f0 dx t st).1.value = f0 := by
  simp only [evaluateObj] at h ⊢
  split_ifs at h ⊢ with hskip himp
  · exact ⟨rfl, rfl⟩

/-- If an evaluation does not deliver a value strictly below the current
best, the best pair is untouched. -/
theorem evaluate_no_improve (fl : ℚ → ℚ) {n : ℕ} (φ : Vec n → ℚ)
    (x0 : Vec n) (f0 : ℚ) (dx : Vec n) (t : ℚ) (st : SState)
    (h : ¬(evaluateObj fl φ x0 f0 dx t st).1.value < st.bestVal) :
    (evaluateObj fl φ x0 f0 dx t st).2 = st := by
  simp only [evaluateObj] at h ⊢
  split_ifs at h ⊢ with hskip himp
  · rfl
  · exact absurd himp h
  · rfl

/-- If the halving loop exits through the `!changed` return, the best pair
is exactly what it was on loop entry (every kept iteration saw a value at
least `f0 ≥ bestVal` and therefore never overwrote the best pair), and the
final event of the call is the skipped evaluation, which reused `f0`. -/
theorem halvLoop_stop_best_unchanged (fl : ℚ → ℚ) {n : ℕ} (φ : Vec n → ℚ)
    (x0 : Vec n) (f0 : ℚ) (dx : Vec n) :
    ∀ (fuel : ℕ) (step f1 : ℚ) (st : SState) (acc : List Ev)
      (st' : SState) (evs' : List Ev), st.bestVal ≤ f0 →
      qlsClassHalvLoop fl φ x0 f0 dx fuel step f1 st acc =
        some (HalvOut.stop st' evs') →
      st' = st ∧ ∃ l e, evs' = l ++ [e] ∧ e.changed = false ∧ e.value = f0 := by
  intro fuel
  induction fuel with
  | zero =>
    intro step f1 st acc st' evs' _ hout
    simp only [qlsClassHalvLoop] at hout
    exact absurd hout (by simp)
  | succ fuel' ih =>
    intro step f1 st acc st' evs' hle hout
    simp only [qlsClassHalvLoop] at hout
    split_ifs at hout with hch hlt
    · have hh : (evaluateObj fl φ x0 f0 dx (step / 2) st).2 = st' ∧
          acc ++ [(evaluateObj fl φ x0 f0 dx (step / 2) st).1] = evs' := by
        simpa using hout
      obtain ⟨hsk, hval⟩ := evaluate_not_changed fl φ x0 f0 dx (step / 2) st hch
      refine ⟨by rw [← hh.1, hsk], acc, (evaluateObj fl φ x0 f0 dx (step / 2) st).1,
        hh.2.symm, hch, hval⟩
    · exact absurd hout (by simp)
    · have hni : ¬(evaluateObj fl φ x0 f0 dx (step / 2) st).1.value < st.bestVal :=
        fun hcon => hlt (lt_of_lt_of_le hcon hle)
      have hst := evaluate_no_improve fl φ x0 f0 dx (step / 2) st hni
      rw [hst] at hout
      obtain ⟨h1, h2⟩ := ih (step / 2) _ st _ st' evs' hle hout
      exact ⟨h1, h2⟩

end RKTK

namespace RKTK

/-- Claim C9, amended: when a proposed step during the halving phase
produces a candidate point bit-for-bit equal to `x0`, the objective
evaluation is skipped, `f0` is reused as the delivered value, and the
search returns immediately through the `!changed` return with a best step
of exactly zero and a best value of exactly `f0` (no evaluation of the
call improved on `f0`, so the initial pair `(f0, 0)` is returned and the
caller can short-circuit).  As stated the claim is wrong only about the
other evaluation sites: an equal-to-`x0` point proposed at the initial,
doubling or quadratic-fit evaluation also skips the evaluation and reuses
`f0`, but does not force the search to return step zero (see the
counterexample). -/
theorem C9_halving_skip_returns_zero_step (fl : ℚ → ℚ) {n : ℕ}
    (φ : Vec n → ℚ) (x0 : Vec n) (f0 : ℚ) (dx : Vec n) (fuel : ℕ) (ini : ℚ)
    (st : SState) (evs : List Ev)
    (h : qlsClassSearch fl φ x0 f0 dx fuel ini = some (st, evs, QLSExit.noChange)) :
    st.bestStep = 0 ∧ st.bestVal = f0 ∧
      ∃ l e, evs = l ++ [e] ∧ e.changed = false ∧ e.value = f0 := by
  simp only [qlsClassSearch] at h
  split_ifs at h with hlt
  · rcases hD : qlsClassDoubLoop fl φ x0 f0 dx 3 ini
        (evaluateObj fl φ x0 f0 dx ini (searcherInit f0)).1.value
        (evaluateObj fl φ x0 f0 dx ini (searcherInit f0)).2
        [(evaluateObj fl φ x0 f0 dx ini (searcherInit f0)).1] with
      ⟨st', evs'⟩ | ⟨s', g1, g2, st', evs'⟩
    · rw [hD] at h
      simp at h
    · rw [hD] at h
      simp at h
  · have hst1 : (evaluateObj fl φ x0 f0 dx ini (searcherInit f0)).2 = searcherInit f0 := by
      apply evaluate_no_improve
      exact fun hcon => hlt (by simpa [searcherInit] using hcon)
    rcases hH : qlsClassHalvLoop fl φ x0 f0 dx fuel ini
        (evaluateObj fl φ x0 f0 dx ini (searcherInit f0)).1.value
        (evaluateObj fl φ x0 f0 dx ini (searcherInit f0)).2
        [(evaluateObj fl φ x0 f0 dx ini (searcherInit f0)).1] with _ | out
    · rw [hH] at h
      simp at h
    · rw [hH] at h
      rcases out with ⟨st', evs'⟩ | ⟨s', g1, g2, st', evs'⟩
      · have hh : st' = st ∧ evs' = evs := by simpa using h
        rw [hst1] at hH
        obtain ⟨h1, h2⟩ := halvLoop_stop_best_unchanged fl φ x0 f0 dx fuel ini
          (evaluateObj fl φ x0 f0 dx ini (searcherInit f0)).1.value
          (searcherInit f0) _ st' evs' (le_refl f0) hH
        rw [← hh.1, ← hh.2]
        rw [h1]
        exact ⟨rfl, rfl, h2⟩
      · simp at h

end RKTK

namespace RKTK

/-- Witness for the amended C9: with `dx = (0)` every proposed point equals
`x0`, the initial evaluation is skipped, the first halving iteration hits
the `!changed` return, and the search returns the pair `(f0, 0) = (1, 0)`. -/
theorem C9_halving_skip_returns_zero_step_witness :
    qlsClassSearch id (fun _ : Vec 1 => 0) (fun _ => 0) 1 (fun _ => 0) 1 1 =
      some (⟨1, 0⟩, [⟨1, false, 1⟩, ⟨1 / 2, false, 1⟩], QLSExit.noChange) ∧
    (SState.bestStep ⟨1, 0⟩ = 0 ∧ SState.bestVal ⟨1, 0⟩ = 1 ∧
      ∃ l e, [(⟨1, false, 1⟩ : Ev), ⟨1 / 2, false, 1⟩] = l ++ [e] ∧
        e.changed = false ∧ e.value = 1) := by
  have hrun : qlsClassSearch id (fun _ : Vec 1 => 0) (fun _ => 0) 1 (fun _ => 0) 1 1 =
      some (⟨1, 0⟩, [⟨1, false, 1⟩, ⟨1 / 2, false, 1⟩], QLSExit.noChange) := by
    norm_num [qlsClassSearch, evaluateObj, qlsClassHalvLoop, searcherInit,
      elementwise_equal, Fin.forall_fin_one]
  exact ⟨hrun, C9_halving_skip_returns_zero_step id (fun _ : Vec 1 => 0) (fun _ => 0)
    1 (fun _ => 0) 1 1 ⟨1, 0⟩ [⟨1, false, 1⟩, ⟨1 / 2, false, 1⟩] hrun⟩

/-- The objective of the C9 counterexample (one dimension, as a function
of the evaluation point): value `2` at the point `3`, value `8` at the
point `4`, value `3` everywhere else.  All three values are exactly
representable at two significant bits. -/
def phiC9 : Vec 1 → ℚ := fun p => if p 0 = 3 then 2 else if p 0 = 4 then 8 else 3

/-- Claim C9 is false as stated at the quadratic-fit evaluation site, in
the program's own rounding mode (`rndNE2`, round-to-nearest ties-to-even
at two significant bits).  The search starts at `x0 = (2)` along
`dx = (1)` with `f0 = 3` and initial step `1`; at precision 2 the spacing
of floats around `2` is one unit.  The initial evaluation moves to the
point `3` and improves (`2 < 3`), the doubling to `4` overshoots (`8`),
and the fit computes `denom = fl(fl(2·2 − 8) − 3) = fl(-7) = -8` (a tie
to the even mantissa), `numer = fl(fl(4·2 − 8) − fl(3·3)) = fl(0 − 8) =
-8`, so the fit step is `fl(fl((1/2)·(-8)) / (-8)) = 1/2`.  The fit
evaluation's point is `fl((1/2)·1 + 2) = fl(5/2) = 2` — the half-unit
increment is absorbed into the even mantissa of `2` — which equals `x0`
bit-for-bit, so the evaluation is skipped and `f0 = 3` reused (the third
event has `changed = false`); yet the search does not terminate with a
returned step of zero: it returns the earlier best pair `(2, 1)`, whose
step is nonzero. -/
theorem C9_counterexample :
    qlsClassSearch rndNE2 phiC9 (fun _ => 2) 3 (fun _ => 1) 1 1 =
      some (⟨2, 1⟩, [⟨1, true, 2⟩, ⟨2, true, 8⟩, ⟨1 / 2, false, 3⟩], QLSExit.fitDone) ∧
    (∃ e ∈ [(⟨1, true, 2⟩ : Ev), ⟨2, true, 8⟩, ⟨1 / 2, false, 3⟩], e.changed = false) ∧
    SState.bestStep ⟨2, 1⟩ ≠ 0 := by
  refine ⟨?_, ⟨⟨1 / 2, false, 3⟩, by simp, rfl⟩, by norm_num⟩
  have r01 : rndNE2 3 = 3 := by norm_num [rndNE2, rndNE2Pos, exp2B]
  have r02 : rndNE2 4 = 4 := by norm_num [rndNE2, rndNE2Pos, exp2B]
  have r03 : rndNE2 (-4) = -4 := by norm_num [rndNE2, rndNE2Pos, exp2B]
  have r04 : rndNE2 (-7) = -8 := by norm_num [rndNE2, rndNE2Pos, exp2B]
  have r05 : rndNE2 0 = 0 := by norm_num [rndNE2]
  have r06 : rndNE2 9 = 8 := by norm_num [rndNE2, rndNE2Pos, exp2B]
  have r07 : rndNE2 (-8) = -8 := by norm_num [rndNE2, rndNE2Pos, exp2B]
  have r08 : rndNE2 (1 / 2) = 1 / 2 := by norm_num [rndNE2, rndNE2Pos, exp2B]
  have r09 : rndNE2 (5 / 2) = 2 := by norm_num [rndNE2, rndNE2Pos, exp2B]
  norm_num [qlsClassSearch, evaluateObj, qlsClassDoubLoop, searcherInit,
    elementwise_equal, incFitStep, phiC9, Fin.forall_fin_one,
    r01, r02, r03, r04, r05, r06, r07, r08, r09]

end RKTK

namespace RKTK

/-- `MPFRVector::negate_and_normalize(tmp)`: compute the norm into `tmp`,
set `tmp := fl(-1 / tmp)` (`mpfr_si_div`), scale every entry by `tmp`
(`mpfr_mul`).  Returns the final value of `tmp` (which the optimizer
passes `func_new` for, clobbering it) together with the scaled vector. -/
def negNormalize (fl fsqrt : ℚ → ℚ) {n : ℕ} (v : Vec n) : ℚ × Vec n :=
  let nrm := l2NormFl fl fsqrt v
  let tmp := fl (-1 / nrm)
  (tmp, fun i => fl (tmp * v i))

/-- The quasi-Newton direction of `BFGSOptimizer::step` (lines 253-256):
`step_dir = hess_inv × grad`, then negated and normalized.  The first
component is the scratch value left in `func_new`. -/
def bfgsDirection (fl fsqrt : ℚ → ℚ) {n : ℕ} (H : Mat n) (g : Vec n) :
    ℚ × Vec n :=
  negNormalize fl fsqrt (matVecFl fl H g)

/-- The gradient-descent direction used after the Hessian reset
(lines 268-270): the Hessian is set to the identity and the direction
recomputed from it. -/
def resetDirection (fl fsqrt : ℚ → ℚ) {n : ℕ} (g : Vec n) : ℚ × Vec n :=
  negNormalize fl fsqrt (matVecFl fl (identityMat _) g)

/-- The type of the line-search routine `step()` calls
(`quadratic_line_search(step_size_new, x_new, grad_new, x, func,
step_size, step_dir, prec, rnd)`): from the current point, its objective
value, the initial step size and the direction it produces the optimal
step size plus the final contents of the two scratch vectors it was lent
(`x_new` and `grad_new`, which it clobbers with candidate points);
`none` models a non-terminating search.  `step()` is embedded
parametrically in this routine; the repository's own instance is the
free-standing `quadratic_line_search` above. -/
def LSFun (n : ℕ) : Type :=
  Vec n → ℚ → ℚ → Vec n → Option (ℚ × Vec n × Vec n)

/-- The converged return of `BFGSOptimizer::step` (lines 273-284): the
candidate point is set equal to the current point (`x_new = x`, exact
entrywise copy), the current norm, objective value, gradient and gradient
norm are copied into the candidate slots, and `grad_delta` is zeroed. -/
def convergedCommit {n : ℕ} (st : BFGSState n) : BFGSState n :=
  { st with
    x_new := st.x
    x_new_norm := st.x_norm
    func_new := st.func
    grad_new := st.grad
    grad_new_norm := st.grad_norm
    grad_delta := fun _ => 0 }

/-- The `after_line_search` retry loop of `BFGSOptimizer::step`
(lines 262-328), fuel-indexed over the `goto after_line_search` jumps.  On
entry `st` holds the result of the latest line search in `step_size_new`
(and the clobbered scratch in `x_new` / `grad_new`).  If the step is zero:
reset the Hessian to the identity, recompute the direction (leaving the
normalization scratch in `func_new`), rerun the line search once, and
either commit convergence (still zero) or fall through to take the step.
Taking the step: `x_new[i] = fl(step_size_new·step_dir[i] + x[i])`, the
norm and objective are evaluated, and a non-decrease triggers the retry
(shrink or restore the initial step size, rerun the line search, jump
back); a strict decrease finishes with the gradient evaluation,
`grad_delta = fl(grad_new - grad)` and the inverse-Hessian update. -/
def afterLineSearch (fl fsqrt : ℚ → ℚ) {n : ℕ} (φ : Vec n → ℚ)
    (gradf : Vec n → Vec n) (ls : LSFun n) :
    ℕ → BFGSState n → Option (BFGSState n)
  | 0, _ => none
  | fuel + 1, st =>
    if st.step_size_new = 0 then
      let rd := resetDirection fl fsqrt st.grad
      let stA := { st with
        hess_inv := identityMat n
        step_dir := rd.2
        func_new := rd.1 }
      match ls stA.x stA.func stA.step_size stA.step_dir with
      | none => none
      | some (ssn2, u1, u2) =>
        let stB := { stA with step_size_new := ssn2, x_new := u1, grad_new := u2 }
        if ssn2 = 0 then some (convergedCommit stB)
        else afterLineSearch fl fsqrt φ gradf ls fuel stB
    else
      let xn := fun i => fl (st.step_size_new * st.step_dir i + st.x i)
      let st1 := { st with
        x_new := xn
        x_new_norm := l2NormFl fl fsqrt xn
        func_new := φ xn }
      if objectiveHasDecreased st1 then
        let gn := gradf st1.x_new
        let gd := fun i => fl (gn i - st1.grad i)
        some { st1 with
          grad_new := gn
          grad_new_norm := l2NormFl fl fsqrt gn
          grad_delta := gd
          hess_inv := update_inverse_hessian fl st1.hess_inv gd st1.step_size_new st1.step_dir }
      else
        if st1.step_size_new < st1.step_size then
          let st2 := { st1 with
            step_size := st1.step_size_new
            step_size_new := st1.step_size }
          match ls st2.x st2.func st2.step_size st2.step_dir with
          | none => none
          | some (ssn, u1, u2) =>
            afterLineSearch fl fsqrt φ gradf ls fuel
              { st2 with step_size_new := ssn, x_new := u1, grad_new := u2 }
        else afterLineSearch fl fsqrt φ gradf ls fuel
          { st1 with step_size_new := st1.step_size }

/-- `BFGSOptimizer::step` (`nonlinear_optimizers.hpp` lines 248-328):
compute the BFGS direction, run the line search from the current step
size, and enter the `after_line_search` loop. -/
def bfgsStep (fl fsqrt : ℚ → ℚ) {n : ℕ} (φ : Vec n → ℚ)
    (gradf : Vec n → Vec n) (ls : LSFun n) (fuel : ℕ) (st : BFGSState n) :
    Option (BFGSState n) :=
  let bd := bfgsDirection fl fsqrt st.hess_inv st.grad
  match ls st.x st.func st.step_size bd.2 with
  | none => none
  | some (ssn, u1, u2) =>
    afterLineSearch fl fsqrt φ gradf ls fuel
      { st with
        step_dir := bd.2
        func_new := bd.1
        step_size_new := ssn
        x_new := u1
        grad_new := u2 }

end RKTK

namespace RKTK

/-- Claim C5: if `step()` obtains a zero step from the line search, and the
line search retried after resetting the inverse Hessian to the identity
and recomputing the direction as the normalized negated gradient again
returns a zero step, then `step()` returns (within one pass of the retry
loop), setting the candidate point equal to the current point and copying
the current objective value, gradient and norms into the candidate slots,
with the current point, objective value, gradient, norms and iteration
counter unmutated — so the subsequent non-decrease check reports
convergence (`objective_function_has_decreased` is false). -/
theorem C5_double_zero_step_converges (fl fsqrt : ℚ → ℚ) {n : ℕ}
    (φ : Vec n → ℚ) (gradf : Vec n → Vec n) (ls : LSFun n) (st : BFGSState n)
    (fuel : ℕ) (u1 u2 u1' u2' : Vec n)
    (h1 : ls st.x st.func st.step_size
      (bfgsDirection fl fsqrt st.hess_inv st.grad).2 = some (0, u1, u2))
    (h2 : ls st.x st.func st.step_size
      (resetDirection fl fsqrt st.grad).2 = some (0, u1', u2')) :
    ∃ st', bfgsStep fl fsqrt φ gradf ls (fuel + 1) st = some st' ∧
      st'.x = st.x ∧ st'.func = st.func ∧ st'.grad = st.grad ∧
      st'.x_norm = st.x_norm ∧ st'.grad_norm = st.grad_norm ∧
      st'.iter_count = st.iter_count ∧
      st'.x_new = st.x ∧ st'.func_new = st.func ∧ st'.grad_new = st.grad ∧
      st'.x_new_norm = st.x_norm ∧ st'.grad_new_norm = st.grad_norm ∧
      ¬objectiveHasDecreased st' := by
  simp only [bfgsStep, h1]
  simp only [afterLineSearch]
  norm_num
  rw [h2]
  norm_num [convergedCommit, objectiveHasDecreased]

end RKTK

namespace RKTK

/-- A concrete one-dimensional optimizer state for the C5 witness. -/
def stC5 : BFGSState 1 where
  x := fun _ => 3
  x_new := fun _ => 7
  x_norm := 3
  x_new_norm := 7
  func := 5
  func_new := 4
  grad := fun _ => 1
  grad_new := fun _ => 2
  grad_norm := 1
  grad_new_norm := 2
  grad_delta := fun _ => 1
  step_size := 1
  step_size_new := 2
  step_dir := fun _ => -1
  hess_inv := fun _ _ => 1
  iter_count := 10

/-- Witness for C5: a line-search routine that always returns step `0`
satisfies both hypotheses, and `step()` on the concrete state `stC5`
returns the converged state. -/
theorem C5_double_zero_step_converges_witness :
    ∃ st', bfgsStep id id (fun _ : Vec 1 => 0) (fun _ => fun _ => 0)
        (fun _ _ _ _ => some (0, fun _ => 0, fun _ => 0)) 1 stC5 = some st' ∧
      st'.x = stC5.x ∧ st'.func = stC5.func ∧ st'.grad = stC5.grad ∧
      st'.x_norm = stC5.x_norm ∧ st'.grad_norm = stC5.grad_norm ∧
      st'.iter_count = stC5.iter_count ∧
      st'.x_new = stC5.x ∧ st'.func_new = stC5.func ∧ st'.grad_new = stC5.grad ∧
      st'.x_new_norm = stC5.x_norm ∧ st'.grad_new_norm = stC5.grad_norm ∧
      ¬objectiveHasDecreased st' :=
  C5_double_zero_step_converges id id (fun _ : Vec 1 => 0) (fun _ => fun _ => 0)
    (fun _ _ _ _ => some (0, fun _ => 0, fun _ => 0)) stC5 0
    (fun _ => 0) (fun _ => 0) (fun _ => 0) (fun _ => 0) rfl rfl

end RKTK

namespace RKTK

/-- `is_dec_digit` from `FilenameHelpers.hpp`: `('0' <= c) && (c <= '9')`. -/
def isDecDigitC (c : Char) : Bool := decide ('0' ≤ c) && decide (c ≤ '9')

/-- `is_hex_digit` from `FilenameHelpers.hpp`: decimal digits plus
`a`-`f` and `A`-`F`. -/
def isHexDigitC (c : Char) : Bool :=
  (decide ('0' ≤ c) && decide (c ≤ '9')) ||
  (decide ('a' ≤ c) && decide (c ≤ 'f')) ||
  (decide ('A' ≤ c) && decide (c ≤ 'F'))

/-- `is_dec_substr`: every character of `str[begin..end)` is a decimal
digit.  The index loop of the source is the `all` over the corresponding
`drop`/`take` slice (the callers always have `end ≤ str.size()`). -/
def is_dec_substr (s : List Char) (bg ed : ℕ) : Bool :=
  ((s.drop bg).take (ed - bg)).all isDecDigitC

/-- `is_hex_substr`: every character of `str[begin..end)` is a hex digit. -/
def is_hex_substr (s : List Char) (bg ed : ℕ) : Bool :=
  ((s.drop bg).take (ed - bg)).all isHexDigitC

/-- `is_rktk_filename` from `FilenameHelpers.hpp` (lines 38-64): the fixed
68-character grammar
`FFFF-GGGG-RKTK-AAAAAAAA-BBBB-CCCC-DDDD-EEEEEEEEEEEE-IIIIIIIIIIII.txt`.
Each single-character test `filename[i] != c` of the source becomes a
`getD` test (the preceding length check makes the default irrelevant), and
the early-`return false` chain becomes a `&&` chain. -/
def is_rktk_filename (s : List Char) : Bool :=
  s.length == 68 &&
  is_dec_substr s 0 4 && (s.getD 4 ' ' == '-') &&
  is_dec_substr s 5 9 && (s.getD 9 ' ' == '-') &&
  (s.getD 10 ' ' == 'R') && (s.getD 11 ' ' == 'K') &&
  (s.getD 12 ' ' == 'T') && (s.getD 13 ' ' == 'K') && (s.getD 14 ' ' == '-') &&
  is_hex_substr s 15 23 && (s.getD 23 ' ' == '-') &&
  is_hex_substr s 24 28 && (s.getD 28 ' ' == '-') &&
  is_hex_substr s 29 33 && (s.getD 33 ' ' == '-') &&
  is_hex_substr s 34 38 && (s.getD 38 ' ' == '-') &&
  is_hex_substr s 39 51 && (s.getD 51 ' ' == '-') &&
  is_dec_substr s 52 64 && (s.getD 64 ' ' == '.') &&
  (s.getD 65 ' ' == 't') && (s.getD 66 ' ' == 'x') && (s.getD 67 ' ' == 't')

/-- The numeric value a decimal digit contributes under
`istringstream >> std::dec`. -/
def decVal (c : Char) : ℕ := c.toNat - 48

/-- The numeric value a hex digit contributes under
`istringstream >> std::hex` (both letter cases accepted). -/
def hexVal (c : Char) : ℕ :=
  if 97 ≤ c.toNat then c.toNat - 87
  else if 65 ≤ c.toNat then c.toNat - 55
  else c.toNat - 48

/-- Positional numeral read: what `istringstream >> value` computes on an
all-digit string in base `b` (no overflow occurs for the widths and bounds
of the checkpoint grammar: 12 decimal digits < 2^64 and 12 hex digits
< 2^64). -/
def parseNat (b : ℕ) (vl : Char → ℕ) (cs : List Char) : ℕ :=
  cs.foldl (fun a c => b * a + vl c) 0

/-- `dec_substr_to_int` from `FilenameHelpers.hpp`:
`str.substr(begin, end - begin)` parsed with `>> std::dec`. -/
def dec_substr_to_int (s : List Char) (bg ed : ℕ) : ℕ :=
  parseNat 10 decVal ((s.drop bg).take (ed - bg))

/-- `hex_substr_to_int` from `FilenameHelpers.hpp`:
`str.substr(begin, end - begin)` parsed with `>> std::hex`. -/
def hex_substr_to_int (s : List Char) (bg ed : ℕ) : ℕ :=
  parseNat 16 hexVal ((s.drop bg).take (ed - bg))

/-- Little-endian base-`b` digit list of `n`, fuel-indexed (the fuel `n`
itself always suffices). -/
def natToDigitsRev (b : ℕ) : ℕ → ℕ → List ℕ
  | 0, _ => []
  | _ + 1, 0 => []
  | fuel + 1, n + 1 => (n + 1) % b :: natToDigitsRev b fuel ((n + 1) / b)

/-- The digit list `std::setw(w)` with fill `'0'` left-pads: most
significant digit first, zero-padded to width `w` (the callers keep
`n < b ^ w`, so no truncation ever happens). -/
def padDigits (b w n : ℕ) : List ℕ :=
  List.replicate (w - (natToDigitsRev b n n).length) 0 ++ (natToDigitsRev b n n).reverse

/-- The decimal digit characters `std::dec` prints. -/
def decChar (d : ℕ) : Char := Char.ofNat (48 + d)

/-- The uppercase hex digit characters `std::hex << std::uppercase`
prints. -/
def hexChar (d : ℕ) : Char := if d < 10 then Char.ofNat (48 + d) else Char.ofNat (55 + d)

/-- A `w`-wide zero-padded decimal field
(`std::setfill('0') << std::setw(w) << std::dec << n`). -/
def decField (w n : ℕ) : List Char := (padDigits 10 w n).map decChar

/-- A `w`-wide zero-padded uppercase hex field
(`std::setfill('0') << std::setw(w) << std::hex << std::uppercase << n`). -/
def hexField (w n : ℕ) : List Char := (padDigits 16 w n).map hexChar

/-- The append order of the `ostringstream` chain of
`BFGSOptimizer::write_to_file` (lines 211-223): the eight variable fields
joined by `'-'`, the literal `RKTK` group and the trailing `.txt`. -/
def rktkAssemble (fF fG fA fB fC fD fE fI : List Char) : List Char :=
  fF ++ '-' :: (fG ++ '-' :: 'R' :: 'K' :: 'T' :: 'K' :: '-' ::
    (fA ++ '-' :: (fB ++ '-' :: (fC ++ '-' :: (fD ++ '-' ::
      (fE ++ '-' :: (fI ++ ['.', 't', 'x', 't'])))))))

/-- The checkpoint filename `BFGSOptimizer::write_to_file` builds: 4-digit
decimal quality scores, the five RunIdentifier segments as 8/4/4/4/12
uppercase hex groups, and the 12-digit decimal iteration counter. -/
def encodeFilename (f g s0 s1 s2 s3 s4 it : ℕ) : List Char :=
  rktkAssemble (decField 4 f) (decField 4 g) (hexField 8 s0) (hexField 4 s1)
    (hexField 4 s2) (hexField 4 s3) (hexField 12 s4) (decField 12 it)

end RKTK

namespace RKTK

/-- Every digit `natToDigitsRev` produces is below the base. -/
theorem natToDigitsRev_lt (b : ℕ) (hb : 0 < b) :
    ∀ (fuel n d : ℕ), d ∈ natToDigitsRev b fuel n → d < b := by
  intro fuel
  induction fuel with
  | zero => intro n d hd; simp [natToDigitsRev] at hd
  | succ fuel ih =>
    intro n d hd
    cases n with
    | zero => simp [natToDigitsRev] at hd
    | succ m =>
      simp only [natToDigitsRev, List.mem_cons] at hd
      rcases hd with rfl | hd
      · exact Nat.mod_lt _ hb
      · exact ih _ _ hd

/-- With enough fuel, a value below `b ^ w` has at most `w` digits. -/
theorem natToDigitsRev_length_le (b : ℕ) (hb : 2 ≤ b) :
    ∀ (fuel n w : ℕ), n ≤ fuel → n < b ^ w →
      (natToDigitsRev b fuel n).length ≤ w := by
  intro fuel
  induction fuel with
  | zero =>
    intro n w hn _
    interval_cases n
    simp [natToDigitsRev]
  | succ fuel ih =>
    intro n w hn hw
    cases n with
    | zero => simp [natToDigitsRev]
    | succ m =>
      cases w with
      | zero => simp at hw
      | succ w' =>
        simp only [natToDigitsRev, List.length_cons]
        have hdiv : (m + 1) / b ≤ fuel := by
          have := Nat.div_lt_self (show 0 < m + 1 by omega) (by omega : 1 < b)
          omega
        have hdivw : (m + 1) / b < b ^ w' := by
          rw [Nat.div_lt_iff_lt_mul (by omega : 0 < b)]
          calc m + 1 < b ^ (w' + 1) := hw
          _ = b ^ w' * b := by ring
        have := ih _ w' hdiv hdivw
        omega

/-- Folding the most-significant-first digits back with `b·acc + d`
recovers the value. -/
theorem natToDigitsRev_foldl (b : ℕ) (hb : 2 ≤ b) :
    ∀ (fuel n : ℕ), n ≤ fuel → ∀ acc : ℕ,
      (natToDigitsRev b fuel n).reverse.foldl (fun a d => b * a + d) acc =
        acc * b ^ (natToDigitsRev b fuel n).length + n := by
  intro fuel
  induction fuel with
  | zero =>
    intro n hn acc
    interval_cases n
    simp [natToDigitsRev]
  | succ fuel ih =>
    intro n hn acc
    cases n with
    | zero => simp [natToDigitsRev]
    | succ m =>
      simp only [natToDigitsRev, List.reverse_cons, List.foldl_append,
        List.foldl_cons, List.foldl_nil, List.length_cons]
      have hdiv : (m + 1) / b ≤ fuel := by
        have := Nat.div_lt_self (show 0 < m + 1 by omega) (by omega : 1 < b)
        omega
      rw [ih _ hdiv acc, pow_succ]
      have hmod := Nat.div_add_mod (m + 1) b
      have hrg : b * (acc * b ^ (natToDigitsRev b fuel ((m + 1) / b)).length
            + (m + 1) / b) + (m + 1) % b =
          acc * (b ^ (natToDigitsRev b fuel ((m + 1) / b)).length * b) +
            (b * ((m + 1) / b) + (m + 1) % b) := by ring
      rw [hrg, hmod]

/-- A zero-padded digit field of a value below `b ^ w` has exactly width
`w`. -/
theorem padDigits_length (b w n : ℕ) (hb : 2 ≤ b) (h : n < b ^ w) :
    (padDigits b w n).length = w := by
  unfold padDigits
  rw [List.length_append, List.length_replicate, List.length_reverse]
  have := natToDigitsRev_length_le b hb n n w (le_refl n) h
  omega

/-- Reading a zero-padded digit field back recovers the value, provided
the digit-to-character map is inverted by the character-value map. -/
theorem parse_padDigits (b w n : ℕ) (hb : 2 ≤ b)
    (vl : Char → ℕ) (ch : ℕ → Char) (hvc : ∀ d, d < b → vl (ch d) = d) :
    parseNat b vl ((padDigits b w n).map ch) = n := by
  unfold parseNat padDigits
  rw [List.map_append, List.foldl_append]
  have hz : vl (ch 0) = 0 := hvc 0 (by omega)
  have hrep : ∀ k, (((List.replicate k (0 : ℕ)).map ch).foldl
      (fun a c => b * a + vl c) 0) = 0 := by
    intro k
    induction k with
    | zero => rfl
    | succ k ihk =>
      rw [List.replicate_succ, List.map_cons, List.foldl_cons, hz]
      simpa using ihk
  rw [hrep, List.foldl_map]
  have hcong : ∀ (L : List ℕ) (acc : ℕ), (∀ d ∈ L, vl (ch d) = d) →
      L.foldl (fun a d => b * a + vl (ch d)) acc =
        L.foldl (fun a d => b * a + d) acc := by
    intro L
    induction L with
    | nil => intro acc _; rfl
    | cons d T ihT =>
      intro acc hmem
      rw [List.foldl_cons, List.foldl_cons, hmem d (by simp),
        ihT _ (fun x hx => hmem x (by simp [hx]))]
  rw [hcong _ _ (fun d hd => hvc d
    (natToDigitsRev_lt b (by omega) n n d (List.mem_reverse.mp hd)))]
  rw [natToDigitsRev_foldl b hb n n (le_refl n) 0]
  simp

/-- Parsing a decimal digit character gives the digit back. -/
theorem decVal_decChar (d : ℕ) (h : d < 10) : decVal (decChar d) = d := by
  interval_cases d <;> rfl

/-- Parsing an uppercase hex digit character gives the digit back. -/
theorem hexVal_hexChar (d : ℕ) (h : d < 16) : hexVal (hexChar d) = d := by
  interval_cases d <;> rfl

/-- Decimal fields are made of decimal digit characters. -/
theorem decField_all_dec (w n : ℕ) : (decField w n).all isDecDigitC = true := by
  simp only [decField, List.all_eq_true, List.mem_map]
  rintro c ⟨d, hd, rfl⟩
  have hdlt : d < 10 := by
    rcases List.mem_append.mp hd with hd | hd
    · rw [List.eq_of_mem_replicate hd]
      norm_num
    · exact natToDigitsRev_lt 10 (by norm_num) n n d (List.mem_reverse.mp hd)
  interval_cases d <;> rfl

/-- Hex fields are made of hex digit characters. -/
theorem hexField_all_hex (w n : ℕ) : (hexField w n).all isHexDigitC = true := by
  simp only [hexField, List.all_eq_true, List.mem_map]
  rintro c ⟨d, hd, rfl⟩
  have hdlt : d < 16 := by
    rcases List.mem_append.mp hd with hd | hd
    · rw [List.eq_of_mem_replicate hd]
      norm_num
    · exact natToDigitsRev_lt 16 (by norm_num) n n d (List.mem_reverse.mp hd)
  interval_cases d <;> rfl

/-- Field width lemma, decimal case. -/
theorem decField_length (w n : ℕ) (h : n < 10 ^ w) : (decField w n).length = w := by
  simp [decField, padDigits_length 10 w n (by norm_num) h]

/-- Field width lemma, hex case. -/
theorem hexField_length (w n : ℕ) (h : n < 16 ^ w) : (hexField w n).length = w := by
  simp [hexField, padDigits_length 16 w n (by norm_num) h]

/-- `getD` is the head of the corresponding `drop`. -/
theorem getD_eq_headD_drop {α : Type} (d : α) :
    ∀ (n : ℕ) (l : List α), l.getD n d = (l.drop n).headD d := by
  intro n
  induction n with
  | zero => intro l; cases l <;> rfl
  | succ n ihn =>
    intro l
    cases l with
    | nil => rfl
    | cons a t => rw [List.drop_succ_cons, List.getD_cons_succ, ihn]

end RKTK

namespace RKTK

/-- Structure of an assembled checkpoint filename: with fields of the
right widths and digit classes it is 68 characters long, passes
`is_rktk_filename`, and every metadata slice recovers its field. -/
theorem rktk_parts (fF fG fA fB fC fD fE fI : List Char)
    (hF : fF.length = 4) (hG : fG.length = 4) (hA : fA.length = 8)
    (hB : fB.length = 4) (hC : fC.length = 4) (hD : fD.length = 4)
    (hE : fE.length = 12) (hI : fI.length = 12)
    (hFd : fF.all isDecDigitC = true) (hGd : fG.all isDecDigitC = true)
    (hAx : fA.all isHexDigitC = true) (hBx : fB.all isHexDigitC = true)
    (hCx : fC.all isHexDigitC = true) (hDx : fD.all isHexDigitC = true)
    (hEx : fE.all isHexDigitC = true) (hId : fI.all isDecDigitC = true) :
    (rktkAssemble fF fG fA fB fC fD fE fI).length = 68 ∧
    is_rktk_filename (rktkAssemble fF fG fA fB fC fD fE fI) = true ∧
    ((rktkAssemble fF fG fA fB fC fD fE fI).drop 52).take 12 = fI ∧
    ((rktkAssemble fF fG fA fB fC fD fE fI).drop 15).take 8 = fA ∧
    ((rktkAssemble fF fG fA fB fC fD fE fI).drop 24).take 4 = fB ∧
    ((rktkAssemble fF fG fA fB fC fD fE fI).drop 29).take 4 = fC ∧
    ((rktkAssemble fF fG fA fB fC fD fE fI).drop 34).take 4 = fD ∧
    ((rktkAssemble fF fG fA fB fC fD fE fI).drop 39).take 12 = fE := by
  simp only [rktkAssemble]
  set t8 : List Char := fI ++ ['.', 't', 'x', 't'] with ht8
  set t7 : List Char := fE ++ '-' :: t8 with ht7
  set t6 : List Char := fD ++ '-' :: t7 with ht6
  set t5 : List Char := fC ++ '-' :: t6 with ht5
  set t4 : List Char := fB ++ '-' :: t5 with ht4
  set t3 : List Char := fA ++ '-' :: t4 with ht3
  set t2 : List Char := fG ++ '-' :: 'R' :: 'K' :: 'T' :: 'K' :: '-' :: t3 with ht2
  set fn : List Char := fF ++ '-' :: t2 with hfn
  have d4 : fn.drop 4 = '-' :: t2 := by
    rw [hfn]
    exact List.drop_left' hF
  have d5 : fn.drop 5 = t2 := by
    rw [show (5 : ℕ) = 4 + 1 from rfl, ← List.drop_drop, d4]
    rfl
  have d9 : fn.drop 9 = '-' :: 'R' :: 'K' :: 'T' :: 'K' :: '-' :: t3 := by
    rw [show (9 : ℕ) = 5 + 4 from rfl, ← List.drop_drop, d5, ht2]
    exact List.drop_left' hG
  have d15 : fn.drop 15 = t3 := by
    rw [show (15 : ℕ) = 9 + 6 from rfl, ← List.drop_drop, d9]
    rfl
  have d23 : fn.drop 23 = '-' :: t4 := by
    rw [show (23 : ℕ) = 15 + 8 from rfl, ← List.drop_drop, d15, ht3]
    exact List.drop_left' hA
  have d24 : fn.drop 24 = t4 := by
    rw [show (24 : ℕ) = 23 + 1 from rfl, ← List.drop_drop, d23]
    rfl
  have d28 : fn.drop 28 = '-' :: t5 := by
    rw [show (28 : ℕ) = 24 + 4 from rfl, ← List.drop_drop, d24, ht4]
    exact List.drop_left' hB
  have d29 : fn.drop 29 = t5 := by
    rw [show (29 : ℕ) = 28 + 1 from rfl, ← List.drop_drop, d28]
    rfl
  have d33 : fn.drop 33 = '-' :: t6 := by
    rw [show (33 : ℕ) = 29 + 4 from rfl, ← List.drop_drop, d29, ht5]
    exact List.drop_left' hC
  have d34 : fn.drop 34 = t6 := by
    rw [show (34 : ℕ) = 33 + 1 from rfl, ← List.drop_drop, d33]
    rfl
  have d38 : fn.drop 38 = '-' :: t7 := by
    rw [show (38 : ℕ) = 34 + 4 from rfl, ← List.drop_drop, d34, ht6]
    exact List.drop_left' hD
  have d39 : fn.drop 39 = t7 := by
    rw [show (39 : ℕ) = 38 + 1 from rfl, ← List.drop_drop, d38]
    rfl
  have d51 : fn.drop 51 = '-' :: t8 := by
    rw [show (51 : ℕ) = 39 + 12 from rfl, ← List.drop_drop, d39, ht7]
    exact List.drop_left' hE
  have d52 : fn.drop 52 = t8 := by
    rw [show (52 : ℕ) = 51 + 1 from rfl, ← List.drop_drop, d51]
    rfl
  have d64 : fn.drop 64 = ['.', 't', 'x', 't'] := by
    rw [show (64 : ℕ) = 52 + 12 from rfl, ← List.drop_drop, d52, ht8]
    exact List.drop_left' hI
  have hlen : fn.length = 68 := by
    rw [hfn, ht2, ht3, ht4, ht5, ht6, ht7, ht8]
    simp [List.length_append, hF, hG, hA, hB, hC, hD, hE, hI]
  have c0 : (fn.length == 68) = true := by
    rw [hlen]
    rfl
  have cD1 : is_dec_substr fn 0 4 = true := by
    unfold is_dec_substr
    rw [show (4 : ℕ) - 0 = 4 from rfl, List.drop_zero, hfn, List.take_left' hF]
    exact hFd
  have cD2 : is_dec_substr fn 5 9 = true := by
    unfold is_dec_substr
    rw [show (9 : ℕ) - 5 = 4 from rfl, d5, ht2, List.take_left' hG]
    exact hGd
  have cH1 : is_hex_substr fn 15 23 = true := by
    unfold is_hex_substr
    rw [show (23 : ℕ) - 15 = 8 from rfl, d15, ht3, List.take_left' hA]
    exact hAx
  have cH2 : is_hex_substr fn 24 28 = true := by
    unfold is_hex_substr
    rw [show (28 : ℕ) - 24 = 4 from rfl, d24, ht4, List.take_left' hB]
    exact hBx
  have cH3 : is_hex_substr fn 29 33 = true := by
    unfold is_hex_substr
    rw [show (33 : ℕ) - 29 = 4 from rfl, d29, ht5, List.take_left' hC]
    exact hCx
  have cH4 : is_hex_substr fn 34 38 = true := by
    unfold is_hex_substr
    rw [show (38 : ℕ) - 34 = 4 from rfl, d34, ht6, List.take_left' hD]
    exact hDx
  have cH5 : is_hex_substr fn 39 51 = true := by
    unfold is_hex_substr
    rw [show (51 : ℕ) - 39 = 12 from rfl, d39, ht7, List.take_left' hE]
    exact hEx
  have cD3 : is_dec_substr fn 52 64 = true := by
    unfold is_dec_substr
    rw [show (64 : ℕ) - 52 = 12 from rfl, d52, ht8, List.take_left' hI]
    exact hId
  have p4 : (fn.getD 4 ' ' == '-') = true := by rw [getD_eq_headD_drop, d4]; rfl
  have p9 : (fn.getD 9 ' ' == '-') = true := by rw [getD_eq_headD_drop, d9]; rfl
  have p10 : (fn.getD 10 ' ' == 'R') = true := by
    rw [getD_eq_headD_drop, show (10 : ℕ) = 9 + 1 from rfl, ← List.drop_drop, d9]
    rfl
  have p11 : (fn.getD 11 ' ' == 'K') = true := by
    rw [getD_eq_headD_drop, show (11 : ℕ) = 9 + 2 from rfl, ← List.drop_drop, d9]
    rfl
  have p12 : (fn.getD 12 ' ' == 'T') = true := by
    rw [getD_eq_headD_drop, show (12 : ℕ) = 9 + 3 from rfl, ← List.drop_drop, d9]
    rfl
  have p13 : (fn.getD 13 ' ' == 'K') = true := by
    rw [getD_eq_headD_drop, show (13 : ℕ) = 9 + 4 from rfl, ← List.drop_drop, d9]
    rfl
  have p14 : (fn.getD 14 ' ' == '-') = true := by
    rw [getD_eq_headD_drop, show (14 : ℕ) = 9 + 5 from rfl, ← List.drop_drop, d9]
    rfl
  have p23 : (fn.getD 23 ' ' == '-') = true := by rw [getD_eq_headD_drop, d23]; rfl
  have p28 : (fn.getD 28 ' ' == '-') = true := by rw [getD_eq_headD_drop, d28]; rfl
  have p33 : (fn.getD 33 ' ' == '-') = true := by rw [getD_eq_headD_drop, d33]; rfl
  have p38 : (fn.getD 38 ' ' == '-') = true := by rw [getD_eq_headD_drop, d38]; rfl
  have p51 : (fn.getD 51 ' ' == '-') = true := by rw [getD_eq_headD_drop, d51]; rfl
  have p64 : (fn.getD 64 ' ' == '.') = true := by rw [getD_eq_headD_drop, d64]; rfl
  have p65 : (fn.getD 65 ' ' == 't') = true := by
    rw [getD_eq_headD_drop, show (65 : ℕ) = 64 + 1 from rfl, ← List.drop_drop, d64]
    rfl
  have p66 : (fn.getD 66 ' ' == 'x') = true := by
    rw [getD_eq_headD_drop, show (66 : ℕ) = 64 + 2 from rfl, ← List.drop_drop, d64]
    rfl
  have p67 : (fn.getD 67 ' ' == 't') = true := by
    rw [getD_eq_headD_drop, show (67 : ℕ) = 64 + 3 from rfl, ← List.drop_drop, d64]
    rfl
  have hrk : is_rktk_filename fn = true := by
    unfold is_rktk_filename
    rw [c0, cD1, p4, cD2, p9, p10, p11, p12, p13, p14, cH1, p23, cH2, p28,
      cH3, p33, cH4, p38, cH5, p51, cD3, p64, p65, p66, p67]
    rfl
  refine ⟨hlen, hrk, ?_, ?_, ?_, ?_, ?_, ?_⟩
  · rw [d52, ht8]
    exact List.take_left' hI
  · rw [d15, ht3]
    exact List.take_left' hA
  · rw [d24, ht4]
    exact List.take_left' hB
  · rw [d29, ht5]
    exact List.take_left' hC
  · rw [d34, ht6]
    exact List.take_left' hD
  · rw [d39, ht7]
    exact List.take_left' hE

end RKTK

namespace RKTK

/-- Claim C7: encoding the optimizer metadata into a checkpoint filename
and parsing that filename on resume is a round trip.  For every pair of
clamped quality scores (each at most 9999, as `write_to_file` guarantees),
every 128-bit RunIdentifier split into its 32/16/16/16/48-bit segments,
and every iteration counter of at most 12 decimal digits, the written
filename has exactly 68 characters, is accepted by `is_rktk_filename`,
and the decoding slices of `initialize_from_file` (`dec_substr_to_int` at
52..64, `hex_substr_to_int` at 15..23, 24..28, 29..33, 34..38, 39..51)
recover the identical iteration counter and RunIdentifier segments. -/
theorem C7_checkpoint_roundtrip (f g s0 s1 s2 s3 s4 it : ℕ)
    (hf : f ≤ 9999) (hg : g ≤ 9999) (h0 : s0 < 2 ^ 32) (h1 : s1 < 2 ^ 16)
    (h2 : s2 < 2 ^ 16) (h3 : s3 < 2 ^ 16) (h4 : s4 < 2 ^ 48)
    (hit : it < 10 ^ 12) :
    (encodeFilename f g s0 s1 s2 s3 s4 it).length = 68 ∧
    is_rktk_filename (encodeFilename f g s0 s1 s2 s3 s4 it) = true ∧
    dec_substr_to_int (encodeFilename f g s0 s1 s2 s3 s4 it) 52 64 = it ∧
    hex_substr_to_int (encodeFilename f g s0 s1 s2 s3 s4 it) 15 23 = s0 ∧
    hex_substr_to_int (encodeFilename f g s0 s1 s2 s3 s4 it) 24 28 = s1 ∧
    hex_substr_to_int (encodeFilename f g s0 s1 s2 s3 s4 it) 29 33 = s2 ∧
    hex_substr_to_int (encodeFilename f g s0 s1 s2 s3 s4 it) 34 38 = s3 ∧
    hex_substr_to_int (encodeFilename f g s0 s1 s2 s3 s4 it) 39 51 = s4 := by
  have hf4 : f < 10 ^ 4 := by
    have e : (10 : ℕ) ^ 4 = 10000 := by norm_num
    omega
  have hg4 : g < 10 ^ 4 := by
    have e : (10 : ℕ) ^ 4 = 10000 := by norm_num
    omega
  have h0' : s0 < 16 ^ 8 := by
    have e : (16 : ℕ) ^ 8 = 2 ^ 32 := by norm_num
    omega
  have h1' : s1 < 16 ^ 4 := by
    have e : (16 : ℕ) ^ 4 = 2 ^ 16 := by norm_num
    omega
  have h2' : s2 < 16 ^ 4 := by
    have e : (16 : ℕ) ^ 4 = 2 ^ 16 := by norm_num
    omega
  have h3' : s3 < 16 ^ 4 := by
    have e : (16 : ℕ) ^ 4 = 2 ^ 16 := by norm_num
    omega
  have h4' : s4 < 16 ^ 12 := by
    have e : (16 : ℕ) ^ 12 = 2 ^ 48 := by norm_num
    omega
  obtain ⟨hlen, hrk, tI, tA, tB, tC, tD, tE⟩ := rktk_parts
    (decField 4 f) (decField 4 g) (hexField 8 s0) (hexField 4 s1)
    (hexField 4 s2) (hexField 4 s3) (hexField 12 s4) (decField 12 it)
    (decField_length 4 f hf4) (decField_length 4 g hg4)
    (hexField_length 8 s0 h0') (hexField_length 4 s1 h1')
    (hexField_length 4 s2 h2') (hexField_length 4 s3 h3')
    (hexField_length 12 s4 h4') (decField_length 12 it hit)
    (decField_all_dec 4 f) (decField_all_dec 4 g)
    (hexField_all_hex 8 s0) (hexField_all_hex 4 s1) (hexField_all_hex 4 s2)
    (hexField_all_hex 4 s3) (hexField_all_hex 12 s4) (decField_all_dec 12 it)
  simp only [encodeFilename]
  refine ⟨hlen, hrk, ?_, ?_, ?_, ?_, ?_, ?_⟩
  · unfold dec_substr_to_int
    rw [show (64 : ℕ) - 52 = 12 from rfl, tI]
    exact parse_padDigits 10 12 it (by norm_num) decVal decChar decVal_decChar
  · unfold hex_substr_to_int
    rw [show (23 : ℕ) - 15 = 8 from rfl, tA]
    exact parse_padDigits 16 8 s0 (by norm_num) hexVal hexChar hexVal_hexChar
  · unfold hex_substr_to_int
    rw [show (28 : ℕ) - 24 = 4 from rfl, tB]
    exact parse_padDigits 16 4 s1 (by norm_num) hexVal hexChar hexVal_hexChar
  · unfold hex_substr_to_int
    rw [show (33 : ℕ) - 29 = 4 from rfl, tC]
    exact parse_padDigits 16 4 s2 (by norm_num) hexVal hexChar hexVal_hexChar
  · unfold hex_substr_to_int
    rw [show (38 : ℕ) - 34 = 4 from rfl, tD]
    exact parse_padDigits 16 4 s3 (by norm_num) hexVal hexChar hexVal_hexChar
  · unfold hex_substr_to_int
    rw [show (51 : ℕ) - 39 = 12 from rfl, tE]
    exact parse_padDigits 16 12 s4 (by norm_num) hexVal hexChar hexVal_hexChar

end RKTK

namespace RKTK

/-- Witness for C7 at the concrete resume scenario of the claim: the
metadata (scores 102 and 304, RunIdentifier segments 0x2A, 0x3, 0x4, 0x5,
0x6, iteration counter 42) encodes to exactly
`0102-0304-RKTK-0000002A-0003-0004-0005-000000000006-000000000042.txt`,
that filename is accepted by the grammar, and decoding it recovers
iteration counter 42 and the same RunIdentifier segments. -/
theorem C7_checkpoint_roundtrip_witness :
    encodeFilename 102 304 42 3 4 5 6 42 =
      ("0102-0304-RKTK-0000002A-0003-0004-0005-000000000006-000000000042.txt").data ∧
    is_rktk_filename (encodeFilename 102 304 42 3 4 5 6 42) = true ∧
    dec_substr_to_int (encodeFilename 102 304 42 3 4 5 6 42) 52 64 = 42 ∧
    hex_substr_to_int (encodeFilename 102 304 42 3 4 5 6 42) 15 23 = 42 ∧
    hex_substr_to_int (encodeFilename 102 304 42 3 4 5 6 42) 24 28 = 3 ∧
    hex_substr_to_int (encodeFilename 102 304 42 3 4 5 6 42) 29 33 = 4 ∧
    hex_substr_to_int (encodeFilename 102 304 42 3 4 5 6 42) 34 38 = 5 ∧
    hex_substr_to_int (encodeFilename 102 304 42 3 4 5 6 42) 39 51 = 6 := by
  have h := C7_checkpoint_roundtrip 102 304 42 3 4 5 6 42 (by norm_num)
    (by norm_num) (by norm_num) (by norm_num) (by norm_num) (by norm_num)
    (by norm_num) (by norm_num)
  exact ⟨by decide, h.2.1, h.2.2.1, h.2.2.2.1, h.2.2.2.2.1, h.2.2.2.2.2.1,
    h.2.2.2.2.2.2.1, h.2.2.2.2.2.2.2⟩

end RKTK
